import Mathlib

/-! # scriptrunner: archive extraction, workspace listing and purge, script execution

A shallow embedding of `os.go` (package `scriptrunner`) and of the archive loop of
`client/main.go`.  Paths use `/` as separator (`os.PathSeparator` on Unix).  The
standard-library functions the program calls (`filepath.Clean`, `filepath.Join`,
`strings.HasPrefix`, `sort.SliceStable`, the `os` file operations) are modelled
explicitly; the functions of the repository keep their names.
-/

namespace Scriptrunner

/-! ## `path/filepath` -/

/-- Split a character list at every `/`; the result is never empty. -/
def splitSep : List Char → List (List Char)
  | [] => [[]]
  | c :: cs =>
    if c = '/' then [] :: splitSep cs
    else
      match splitSep cs with
      | [] => [[c]]
      | s :: ss => (c :: s) :: ss

/-- Whether the output buffer of `Clean` can backtrack over its last element:
there is one and it is not a `..` kept at the front (`out.w > dotdot`).  The
buffer is held as a stack of elements, last element first. -/
def canBacktrack : List (List Char) → Bool
  | [] => false
  | top :: _ => top != ['.', '.']

/-- One iteration of the loop of `filepath.Clean`, on one path element. -/
def cleanStep (rooted : Bool) (stk : List (List Char)) (seg : List Char) : List (List Char) :=
  if seg = [] then stk
  else if seg = ['.'] then stk
  else if seg = ['.', '.'] then
    if canBacktrack stk then stk.tail
    else if rooted then stk
    else seg :: stk
  else seg :: stk

/-- Whether a path starts with the separator. -/
def isRooted : List Char → Bool
  | c :: _ => c == '/'
  | [] => false

/-- The elements that `Clean` keeps, in path order. -/
def cleanSegs (p : List Char) : List (List Char) :=
  ((splitSep p).foldl (cleanStep (isRooted p)) []).reverse

/-- The elements of a path joined with `/`. -/
def joinSegs : List (List Char) → List Char
  | [] => []
  | [s] => s
  | s :: t :: rest => s ++ '/' :: joinSegs (t :: rest)

/-- Write a cleaned path: the kept elements joined with `/`, after a leading `/`
when rooted, and `.` when nothing is left. -/
def renderPath (rooted : Bool) (segs : List (List Char)) : List Char :=
  let body := (if rooted then ['/'] else []) ++ joinSegs segs
  if body = [] then ['.'] else body

/-- Model of `filepath.Clean` on character lists. -/
def cleanChars (p : List Char) : List Char :=
  renderPath (isRooted p) (cleanSegs p)

/-- Model of `filepath.Clean`: the shortest path name equivalent to `path` by purely lexical
processing (empty and `.` elements dropped, `..` cancelled against the element
before it, `..` after the root dropped, the empty path turned into `.`). -/
def Clean (path : String) : String := ⟨cleanChars path.data⟩

/-- Model of `strings.Join(elems, sep)`. -/
def joinWith (sep : String) : List String → String
  | [] => ""
  | [e] => e
  | e :: e2 :: es => e ++ sep ++ joinWith sep (e2 :: es)

/-- Model of `filepath.Join` of a list of elements: leading empty elements are ignored, the
rest is joined with `/` and cleaned; with no non-empty element the result is empty. -/
def JoinList : List String → String
  | [] => ""
  | e :: es => if e = "" then JoinList es else Clean (joinWith "/" (e :: es))

/-- Model of `filepath.Join(a, b)`. -/
def Join (a b : String) : String := JoinList [a, b]

/-- Model of `strings.HasPrefix(s, pre)`. -/
def HasPrefix (s pre : String) : Bool := pre.data.isPrefixOf s.data


/-- The part of a path up to and including its last `/` (empty without one). -/
def dirPart (p : List Char) : List Char :=
  (p.reverse.dropWhile (fun c => c != '/')).reverse

/-- Model of `filepath.Dir`: all but the last element of the path, cleaned. -/
def Dir (path : String) : String := ⟨cleanChars (dirPart path.data)⟩

/-- Model of `filepath.Base`: the last element of the path, after removing trailing
separators; `.` for the empty path and `/` for a path of separators only. -/
def Base (path : String) : String :=
  if path = "" then "."
  else
    let stripped := path.data.reverse.dropWhile (fun c => c == '/')
    let last := (stripped.takeWhile (fun c => c != '/')).reverse
    if last = [] then "/" else ⟨last⟩

/-! ## String comparison and `sort.SliceStable` -/

/-- The comparison `a < b` of two strings: lexicographic on their characters. -/
def strLess (a b : String) : Bool := decide (a.data < b.data)

/-- Model of `sort.SliceStable(x, less)`: a stable sort.  Each element is inserted before the
first element of the already sorted tail that is not less than it, so elements that
compare equal keep their original order. -/
def SliceStable {α : Type} (less : α → α → Bool) (l : List α) : List α :=
  l.insertionSort (fun a b => less b a = false)

/-! ## The file system -/

/-- A file-system object: a directory, or a file with its bytes. -/
inductive Node
  | dir
  | file (data : List Nat)
deriving DecidableEq, Repr

/-- Whether the object is a directory. -/
def Node.isDir : Node → Bool
  | .dir => true
  | .file _ => false

/-- A call into the operating system. -/
inductive Call
  | readDir (path : String)
  | openRead (path : String)
  | read (path : String)
  | mkdirAll (path : String)
  | openFile (path : String)
  | write (path : String) (data : List Nat)
  | remove (path : String)
  | removeAll (path : String)
  | execute (args : List String)
  | stat (path : String)
  | chmod (path : String)
deriving DecidableEq, Repr

/-- The state of the file system: the objects that exist, each under its cleaned
path, and the history of the state-changing calls made so far (oldest first), each
with the error it returned, if any. -/
structure FS where
  nodes : List (String × Node)
  calls : List (Call × Option String)
deriving DecidableEq, Repr

/-- Replace the objects of the file system. -/
def FS.setNodes (fs : FS) (nodes : List (String × Node)) : FS :=
  { fs with nodes := nodes }

/-- Record a call and its outcome in the history. -/
def FS.record (fs : FS) (c : Call) (err : Option String) : FS :=
  { fs with calls := fs.calls ++ [(c, err)] }

/-- What `ioutil.ReadDir` reports for one child (`os.FileInfo`). -/
structure FileInfo where
  Name : String
  IsDir : Bool
deriving DecidableEq, Repr

/-- An entry of an opened zip archive (`*zip.File`): the stored name, whether
`FileInfo().IsDir()` holds, the error of `Open()` if any, and the content. -/
structure ZipFile where
  Name : String
  IsDir : Bool
  OpenErr : Option String
  Body : List Nat
deriving DecidableEq, Repr

/-- What running a command yields: the captured standard output and standard error,
and the error of `cmd.Run()` if any. -/
structure Output where
  stdOut : String
  stdErr : String
  err : Option String
deriving DecidableEq, Repr

/-- The environment of a run: which operating-system calls fail for reasons outside
the model (permissions, disk full, ...), what `zip.OpenReader` finds at a path,
`http.DetectContentType`, `exec.LookPath` (empty when the program is not found), and
what running a program with given arguments in a given directory does: its output
and the objects of the file system afterwards. -/
structure Env where
  fault : Call → Option String
  zipOpen : String → Except String (List ZipFile)
  detect : List Nat → String
  lookPath : String → String
  run : String → List String → String → FS → Output × List (String × Node)

/-- Whether the object at path `k` is an immediate child of directory `dir`: its
path is `dir` joined with its own last element. -/
def isChildOf (dir k : String) : Bool :=
  Base k != ".." && k != Clean dir && Join dir (Base k) == k

/-- The text before the paths of the objects below `k`. -/
def below (k : String) : String := if k = "/" then "/" else k ++ "/"

/-- Whether `q` is the object at `k` or lies below it. -/
def inTree (k q : String) : Bool := q == k || HasPrefix q (below k)

/-- Whether a directory exists at `k`; `.` and `/` always do. -/
def dirExists (nodes : List (String × Node)) (k : String) : Bool :=
  k == "." || k == "/" || nodes.any (fun n => n.1 == k && n.2.isDir)

/-- Whether a file exists at `k`. -/
def fileExists (nodes : List (String × Node)) (k : String) : Bool :=
  nodes.any (fun n => n.1 == k && !n.2.isDir)

/-- Model of `ioutil.ReadDir(dir)`: the immediate children of `dir`, in the order the file
system holds them. -/
def ReadDir (env : Env) (dir : String) (fs : FS) : Except String (List FileInfo) :=
  match env.fault (.readDir dir) with
  | some err => .error err
  | none =>
    .ok ((fs.nodes.filter (fun n => isChildOf dir n.1)).map
      (fun n => { Name := Base n.1, IsDir := n.2.isDir }))

/-- The cleaned paths of a directory and of all the directories above it. -/
def withParents (path : String) : List String :=
  ((cleanSegs path.data).inits.tail).map
    (fun segs => String.mk (renderPath (isRooted path.data) segs))

/-- Model of `os.MkdirAll(path, perm)`: create the directory and any missing parent; an
existing directory is no error, a file in the way is, and so is the empty path. -/
def MkdirAll (env : Env) (path : String) (fs : FS) : Option String × FS :=
  match env.fault (.mkdirAll path) with
  | some err => (some err, fs.record (.mkdirAll path) (some err))
  | none =>
    if path = "" then
      (some "no such file or directory",
        fs.record (.mkdirAll path) (some "no such file or directory"))
    else
      let dirs := withParents path
      if dirs.any (fileExists fs.nodes) then
        (some "not a directory", fs.record (.mkdirAll path) (some "not a directory"))
      else
        let missing := dirs.filter (fun d => !dirExists fs.nodes d)
        (none, (fs.setNodes (fs.nodes ++ missing.map (fun d => (d, Node.dir)))).record
          (.mkdirAll path) none)

/-- Model of `os.OpenFile(path, O_WRONLY|O_CREATE|O_TRUNC, mode)`: the file is created, or
emptied when it exists. -/
def OpenFile (env : Env) (path : String) (fs : FS) : Option String × FS :=
  match env.fault (.openFile path) with
  | some err => (some err, fs.record (.openFile path) (some err))
  | none =>
    let k := Clean path
    if dirExists fs.nodes k then
      (some "is a directory", fs.record (.openFile path) (some "is a directory"))
    else if !dirExists fs.nodes (Dir k) then
      (some "no such file or directory",
        fs.record (.openFile path) (some "no such file or directory"))
    else
      (none, (fs.setNodes (fs.nodes.filter (fun n => n.1 != k) ++ [(k, Node.file [])])).record
        (.openFile path) none)

/-- Model of `io.Copy(dstFile, src)` into the file opened at `path`. -/
def Copy (env : Env) (path : String) (data : List Nat) (fs : FS) : Option String × FS :=
  match env.fault (.write path data) with
  | some err => (some err, fs.record (.write path data) (some err))
  | none =>
    let k := Clean path
    (none, (fs.setNodes (fs.nodes.filter (fun n => n.1 != k) ++ [(k, Node.file data)])).record
      (.write path data) none)

/-- Model of `os.Remove(path)`: delete a file or an empty directory. -/
def Remove (env : Env) (path : String) (fs : FS) : Option String × FS :=
  match env.fault (.remove path) with
  | some err => (some err, fs.record (.remove path) (some err))
  | none =>
    let k := Clean path
    if !fs.nodes.any (fun n => n.1 == k) then
      (some "no such file or directory",
        fs.record (.remove path) (some "no such file or directory"))
    else if fs.nodes.any (fun n => n.1 != k && inTree k n.1) then
      (some "directory not empty", fs.record (.remove path) (some "directory not empty"))
    else
      (none, (fs.setNodes (fs.nodes.filter (fun n => n.1 != k))).record (.remove path) none)

/-- Model of `os.RemoveAll(path)`: delete the object and everything below it; a path that
does not exist is no error. -/
def RemoveAll (env : Env) (path : String) (fs : FS) : Option String × FS :=
  match env.fault (.removeAll path) with
  | some err => (some err, fs.record (.removeAll path) (some err))
  | none =>
    (none, (fs.setNodes (fs.nodes.filter (fun n => !inTree (Clean path) n.1))).record
      (.removeAll path) none)

/-! ## `os.go` -/

/-- The struct `DirFile`: details for a file. -/
structure DirFile where
  Name : String
  FullPath : String
  IsDir : Bool
deriving DecidableEq, Repr

/-- The `DirFile` that `GetDirFiles` builds for one child of `dir`. -/
def toDirFile (dir : String) (f : FileInfo) : DirFile :=
  { Name := f.Name, FullPath := Join dir f.Name, IsDir := f.IsDir }

/-- The comparison `GetDirFiles` sorts with: `filenames[i].Name < filenames[j].Name`. -/
def lessName (a b : DirFile) : Bool := strLess a.Name b.Name

/-- The function `GetDirFiles`: all the files within the given directory, with a flag telling
whether each is a directory. -/
def GetDirFiles (env : Env) (dir : String) (fs : FS) : Except String (List DirFile) :=
  match ReadDir env dir fs with
  | .error err => .error err
  | .ok files => .ok (SliceStable lessName (files.map (toDirFile dir)))

/-- The loop of `CleanDirectory` over the listed files, carrying `errFiles`, `errd`
and the file system. -/
def cleanLoop (env : Env) :
    List DirFile → List String → Option String → FS → List String × Option String × FS
  | [], errFiles, errd, fs => (errFiles, errd, fs)
  | f :: rest, errFiles, errd, fs =>
    match (if f.IsDir then RemoveAll env f.FullPath fs else Remove env f.FullPath fs) with
    | (some err, fs1) => cleanLoop env rest (errFiles ++ [f.Name]) (some err) fs1
    | (none, fs1) => cleanLoop env rest errFiles errd fs1

/-- The formatting verb `%v` applied to a slice of strings: `[a b c]`. -/
def showNames (names : List String) : String :=
  "[" ++ joinWith " " names ++ "]"

/-- The formatting verb `%v` applied to an error value. -/
def showErr : Option String → String
  | some err => err
  | none => "<nil>"

/-- The function `CleanDirectory`: delete everything under the given directory. -/
def CleanDirectory (env : Env) (path : String) (fs : FS) : Option String × FS :=
  match GetDirFiles env path fs with
  | .error err => (some ("error retrieving directoy files: " ++ err), fs)
  | .ok files =>
    match cleanLoop env files [] none fs with
    | (errFiles, errd, fs1) =>
      if errFiles.length > 0 then
        (some ("error deleting " ++ toString errFiles.length ++ " files: " ++
          showNames errFiles ++ " : lasterr: " ++ showErr errd), fs1)
      else (none, fs1)

/-- The 512-byte buffer of `GetFileContentType` after one `Read`: the first bytes of
the file, the rest left at zero. -/
def sniffBuffer (data : List Nat) : List Nat :=
  data.take 512 ++ List.replicate (512 - (data.take 512).length) 0

/-- The function `GetFileContentType`: the content type sniffed from the head of the file, or the
empty string when the file cannot be opened or read (an empty file reads as `EOF`). -/
def GetFileContentType (env : Env) (path : String) (fs : FS) : String :=
  match env.fault (.openRead path) with
  | some _ => ""
  | none =>
    match fs.nodes.find? (fun n => n.1 == Clean path) with
    | none => ""
    | some (_, .dir) => ""
    | some (_, .file data) =>
      match env.fault (.read path) with
      | some _ => ""
      | none => if data = [] then "" else env.detect (sniffBuffer data)

/-- The loop of `GetArchiveFiles`: the names of the files sniffed as `application/zip`. -/
def archiveNames (env : Env) (dir : String) (fs : FS) : List FileInfo → List String
  | [] => []
  | f :: rest =>
    if !f.IsDir then
      if GetFileContentType env (Join dir f.Name) fs = "application/zip" then
        f.Name :: archiveNames env dir fs rest
      else archiveNames env dir fs rest
    else archiveNames env dir fs rest

/-- The function `GetArchiveFiles`: the archive files within the given directory. -/
def GetArchiveFiles (env : Env) (dir : String) (fs : FS) : Except String (List String) :=
  match ReadDir env dir fs with
  | .error err => .error err
  | .ok files =>
    .ok (SliceStable strLess (archiveNames env dir fs files))

/-- The body of the loop of `UnZip` for one entry: the error that ends the
extraction, if any, and the file system afterwards. -/
def unzipEntry (env : Env) (dstDir : String) (f : ZipFile) (fs : FS) : Option String × FS :=
  let filePath := Join dstDir f.Name
  if !HasPrefix filePath (Clean dstDir ++ "/") then (some "invalid file path", fs)
  else if f.IsDir then
    (none, (MkdirAll env filePath fs).2)
  else
    match MkdirAll env (Dir filePath) fs with
    | (some err, fs1) => (some ("error creating directory: " ++ err), fs1)
    | (none, fs1) =>
      match OpenFile env filePath fs1 with
      | (some err, fs2) => (some ("error opening file: " ++ err), fs2)
      | (none, fs2) =>
        match f.OpenErr with
        | some err => (some ("error opening archive file: " ++ err), fs2)
        | none =>
          match Copy env filePath f.Body fs2 with
          | (some err, fs3) => (some ("error processing archive file: " ++ err), fs3)
          | (none, fs3) => (none, fs3)

/-- The loop of `UnZip` over the entries of the archive. -/
def unzipLoop (env : Env) (dstDir : String) : List ZipFile → FS → Option String × FS
  | [], fs => (none, fs)
  | f :: rest, fs =>
    match unzipEntry env dstDir f fs with
    | (some err, fs1) => (some err, fs1)
    | (none, fs1) => unzipLoop env dstDir rest fs1

/-- The function `UnZip`: unzip the archive `srcFile` into `dstDir`. -/
def UnZip (env : Env) (srcFile dstDir : String) (fs : FS) : Option String × FS :=
  match env.zipOpen srcFile with
  | .error err => (some ("error opening archive file: " ++ err), fs)
  | .ok archive => unzipLoop env dstDir archive fs

/-! ## `powershell/pwsh.go` -/

/-- The struct `PowerShell`. -/
structure PowerShell where
  powerShell : String
  workDir : String
deriving DecidableEq, Repr

/-- The function `powershell.New`: a new session working in `workDir`. -/
def New (env : Env) (workDir : String) : PowerShell :=
  { powerShell := env.lookPath "powershell.exe", workDir := workDir }

/-- The function `PowerShell.Execute`: run the given command arguments using PowerShell.  The call
and the error it returned are recorded in the history. -/
def PowerShell.Execute (env : Env) (p : PowerShell) (args : List String) (fs : FS) :
    Output × FS :=
  let r := env.run p.powerShell (["-NoProfile", "-NonInteractive"] ++ args) p.workDir fs
  (r.1, (fs.setNodes (r.2)).record (.execute args) r.1.err)

/-! ## `client/main.go`: the archive loop -/

/-- What the client logs or prints while it processes archives. -/
inductive Event
  | processing (archive : String)
  | listError (err : String)
  | executing (script : String)
  | scriptError (script : String) (error : String)
  | println (out : String)
  | cleanError (err : String)
deriving DecidableEq, Repr

/-- The `switch` on the three results of `Execute` for the script named `name`:
what is logged with `L.Error("error running script", ...)` and what is printed. -/
def reportScript (name stdOut stdErr : String) (err : Option String) : List Event :=
  match err with
  | some e =>
    let errMsg := ""
    let errMsg := if stdErr ≠ "" then errMsg ++ (stdErr ++ "; ") else errMsg
    let errMsg := errMsg ++ e
    [.scriptError name errMsg]
  | none =>
    if stdErr ≠ "" then
      (if stdOut ≠ "" then [Event.println stdOut] else []) ++ [.scriptError name stdErr]
    else if stdOut ≠ "" then [.println stdOut]
    else []

/-- The body of the loop over the listed workspace entries. -/
def runScript (env : Env) (pwsh : PowerShell) (script : DirFile) (fs : FS) :
    List Event × FS :=
  if !script.IsDir then
    match pwsh.Execute env [script.FullPath] fs with
    | (r, fs1) =>
      (.executing script.FullPath :: reportScript script.Name r.stdOut r.stdErr r.err, fs1)
  else ([], fs)

/-- The loop over the listed workspace entries. -/
def runScripts (env : Env) (pwsh : PowerShell) : List DirFile → FS → List Event × FS
  | [], fs => ([], fs)
  | script :: rest, fs =>
    match runScript env pwsh script fs with
    | (ev1, fs1) =>
      match runScripts env pwsh rest fs1 with
      | (ev2, fs2) => (ev1 ++ ev2, fs2)

/-- The first part of the body of the loop of `main` over the discovered archives:
extract into the workspace (the result of `UnZip` is not looked at), list the
workspace, execute the listed files. -/
def extractAndRun (env : Env) (pwsh : PowerShell) (scripts workspace f : String) (fs : FS) :
    List Event × FS :=
  let archive := Join scripts f
  let fs1 := (UnZip env archive workspace fs).2
  match GetDirFiles env workspace fs1 with
  | .error err => ([Event.listError err], fs1)
  | .ok listed => runScripts env pwsh listed fs1

/-- The body of the loop of `main` over the discovered archives: extract, list and
execute, then clean the workspace; an error of `CleanDirectory` is logged. -/
def processArchive (env : Env) (pwsh : PowerShell) (scripts workspace f : String) (fs : FS) :
    List Event × FS :=
  match extractAndRun env pwsh scripts workspace f fs with
  | (ev, fs2) =>
    match CleanDirectory env workspace fs2 with
    | (some err, fs3) => (.processing f :: ev ++ [.cleanError err], fs3)
    | (none, fs3) => (.processing f :: ev, fs3)

/-- The loop of `main` over the discovered archives. -/
def processArchives (env : Env) (pwsh : PowerShell) (scripts workspace : String) :
    List String → FS → List Event × FS
  | [], fs => ([], fs)
  | f :: rest, fs =>
    match processArchive env pwsh scripts workspace f fs with
    | (ev1, fs1) =>
      match processArchives env pwsh scripts workspace rest fs1 with
      | (ev2, fs2) => (ev1 ++ ev2, fs2)

/-- The part of `main` from `powershell.New` on, given the discovered archives. -/
def mainLoop (env : Env) (scripts workspace : String) (files : List String) (fs : FS) :
    List Event × FS :=
  processArchives env (New env workspace) scripts workspace files fs

/-! ## The reference classification of one script run -/

/-- How one script run is classified: a failure with its message, or a success;
either way with the output that is surfaced, if any. -/
inductive Classification
  | failure (message : String) (output : Option String)
  | success (output : Option String)
deriving DecidableEq, Repr

/-- The four cases of the specification, in their order of precedence. -/
def classifyRef (stdOut stdErr : String) (err : Option String) : Classification :=
  match err with
  | some e =>
    if stdErr ≠ "" then .failure (stdErr ++ "; " ++ e) none else .failure e none
  | none =>
    if stdErr ≠ "" then .failure stdErr (if stdOut ≠ "" then some stdOut else none)
    else if stdOut ≠ "" then .success (some stdOut)
    else .success none

/-- How a classification shows for the script named `name`: the surfaced output is
printed, a failure is logged as an error with its message. -/
def Classification.events (name : String) : Classification → List Event
  | .failure message output =>
    (match output with
      | some out => [Event.println out]
      | none => []) ++ [Event.scriptError name message]
  | .success output =>
    match output with
    | some out => [Event.println out]
    | none => []

/-! ## The shape of cleaned paths -/

/-- A path element that `Clean` keeps as it is: not empty, not `.`, not `..`, and
without separator. -/
def PlainSeg (s : List Char) : Prop :=
  s ≠ [] ∧ s ≠ ['.'] ∧ s ≠ ['.', '.'] ∧ '/' ∉ s

/-- The shape of the element stack of `Clean` (last element first): plain elements
on top of `..` elements, the latter only when the path is not rooted. -/
def CanonStk (rooted : Bool) : List (List Char) → Prop
  | [] => True
  | top :: rest =>
    (PlainSeg top ∧ CanonStk rooted rest) ∨
      (top = ['.', '.'] ∧ rooted = false ∧ ∀ s ∈ rest, s = ['.', '.'])

/-! ## Reading the history -/

/-- The arguments of a call to `Execute`, if it is one. -/
def Call.executeArgs : Call → Option (List String)
  | .execute args => some args
  | _ => none

/-- The argument lists passed to `Execute`, in order, in a history. -/
def executed (calls : List (Call × Option String)) : List (List String) :=
  calls.filterMap (fun c => c.1.executeArgs)

/-- The deletion `CleanDirectory` calls for a listed file: `os.RemoveAll` for a
directory, `os.Remove` otherwise. -/
def delCall (f : DirFile) : Call :=
  if f.IsDir then .removeAll f.FullPath else .remove f.FullPath

/-- The names of the files whose deletion returned an error, given the outcome of
each deletion. -/
def failedNames (files : List DirFile) (outcomes : List (Option String)) : List String :=
  ((files.zip outcomes).filter (fun p => p.2.isSome)).map (fun p => p.1.Name)

/-- The last error among the outcomes of a sequence of calls, or `errd` without one. -/
def lastError (errd : Option String) : List (Option String) → Option String
  | [] => errd
  | o :: rest =>
    match o with
    | some err => lastError (some err) rest
    | none => lastError errd rest

/-! ## Concrete environments and file systems -/

/-- An environment in which no call fails for outside reasons, no path holds an
archive, every content is sniffed as `application/octet-stream`, PowerShell is not
found, and running a program prints nothing and leaves the file system alone. -/
def quietEnv : Env :=
  { fault := fun _ => none
    zipOpen := fun _ => .error "no such file or directory"
    detect := fun _ => "application/octet-stream"
    lookPath := fun _ => ""
    run := fun _ _ _ fs => ({ stdOut := "", stdErr := "", err := none }, fs.nodes) }

/-- The quiet environment in which every path holds the archive with the given entries. -/
def archiveEnv (entries : List ZipFile) : Env :=
  { quietEnv with zipOpen := fun _ => .ok entries }

/-- A file system with nothing in it and no call made. -/
def emptyFS : FS := { nodes := [], calls := [] }

/-- A workspace `/ws` holding a directory `b` with a file in it and the files `a`
and `B`, next to a directory `/w`. -/
def demoFS : FS :=
  { nodes := [("/ws/b", .dir), ("/ws/a", .file [1]), ("/ws/b/c", .file [2]), ("/w", .dir),
      ("/ws", .dir), ("/ws/B", .file [3])]
    calls := [] }

/-- A stand-in for `http.DetectContentType` on the two kinds of content used below:
a buffer that starts with the zip local-file signature `PK\x03\x04` is
`application/zip`, anything else is taken for text. -/
def sniffZipOrText (buf : List Nat) : String :=
  if buf.take 4 = [80, 75, 3, 4] then "application/zip" else "text/plain; charset=utf-8"

/-- An environment that sniffs with `sniffZipOrText` and in which only
`/in/data.bin` can be opened as a zip archive. -/
def sniffEnv : Env :=
  { quietEnv with
    detect := sniffZipOrText
    zipOpen := fun p =>
      if p = "/in/data.bin" then
        .ok [{ Name := "run.ps1", IsDir := false, OpenErr := none, Body := [101] }]
      else .error "zip: not a valid zip file" }

/-- An inbox `/in` with the 4-byte file `notes.txt` holding only the signature
`PK\x03\x04`, the text file `a.zip`, the directory `c.zip`, and the file `data.bin`
that starts with the signature. -/
def inboxFS : FS :=
  { nodes := [("/in", .dir), ("/in/notes.txt", .file [80, 75, 3, 4]),
      ("/in/a.zip", .file [104, 101, 108, 108, 111]), ("/in/c.zip", .dir),
      ("/in/data.bin", .file [80, 75, 3, 4, 20, 0, 0, 0, 8, 0])]
    calls := [] }

/-- The listing of the workspace `/ws` of `demoFS`. -/
def demoListing : List DirFile :=
  [{ Name := "B", FullPath := "/ws/B", IsDir := false },
    { Name := "a", FullPath := "/ws/a", IsDir := false },
    { Name := "b", FullPath := "/ws/b", IsDir := true }]

/-- The quiet environment in which deleting `/ws/a` and `/ws/b` is denied. -/
def deniedEnv : Env :=
  { quietEnv with
    fault := fun c =>
      if c = .remove "/ws/a" then some "permission denied"
      else if c = .removeAll "/ws/b" then some "device busy"
      else none }

/-- The archive `x.zip` holds the script `a.ps1`, every other archive holds `b.ps1`,
and deleting `/ws/a.ps1` is denied. -/
def stuckEnv : Env :=
  { quietEnv with
    zipOpen := fun p =>
      if p = "/in/x.zip" then
        .ok [{ Name := "a.ps1", IsDir := false, OpenErr := none, Body := [1] }]
      else .ok [{ Name := "b.ps1", IsDir := false, OpenErr := none, Body := [2] }]
    fault := fun c => if c = .remove "/ws/a.ps1" then some "permission denied" else none }

/-- An archive with the directory `lib/`, a script in it, and the scripts `b.ps1` and
`a.ps1`; running `/ws/a.ps1` fails, running anything else prints `ok`. -/
def scriptsEnv : Env :=
  { quietEnv with
    zipOpen := fun _ =>
      .ok [{ Name := "lib/", IsDir := true, OpenErr := none, Body := [] },
        { Name := "lib/x.ps1", IsDir := false, OpenErr := none, Body := [1] },
        { Name := "b.ps1", IsDir := false, OpenErr := none, Body := [2] },
        { Name := "a.ps1", IsDir := false, OpenErr := none, Body := [3] }]
    run := fun _ args _ fs =>
      if args = ["-NoProfile", "-NonInteractive", "/ws/a.ps1"] then
        ({ stdOut := "", stdErr := "boom", err := some "exit status 1" }, fs.nodes)
      else ({ stdOut := "ok", stdErr := "", err := none }, fs.nodes) }

/-- The entry with a separator put before its stored name, which makes the name an
absolute path. -/
def makeAbsolute (f : ZipFile) : ZipFile := { f with Name := "/" ++ f.Name }

/-- The archive `/in/abs.zip` holds the entry `/etc/evil`, the archive `/in/rel.zip`
the entry `etc/evil` with the same content. -/
def absoluteEnv : Env :=
  { quietEnv with
    zipOpen := fun p =>
      if p = "/in/abs.zip" then
        .ok [{ Name := "/etc/evil", IsDir := false, OpenErr := none, Body := [1, 2, 3] }]
      else if p = "/in/rel.zip" then
        .ok [{ Name := "etc/evil", IsDir := false, OpenErr := none, Body := [1, 2, 3] }]
      else .error "no such file or directory" }

/-- An archive whose second entry is named `../evil`, between two scripts. -/
def traversalEnv : Env :=
  archiveEnv [{ Name := "a.ps1", IsDir := false, OpenErr := none, Body := [1] },
    { Name := "../evil", IsDir := false, OpenErr := none, Body := [6, 6, 6] },
    { Name := "b.ps1", IsDir := false, OpenErr := none, Body := [2] }]

/-- An archive with the directory entry `d/` followed by the file `b.ps1`, in an
environment where creating the directory `/ws/d` is denied. -/
def mkdirDeniedEnv : Env :=
  { quietEnv with
    zipOpen := fun _ =>
      .ok [{ Name := "d/", IsDir := true, OpenErr := none, Body := [] },
        { Name := "b.ps1", IsDir := false, OpenErr := none, Body := [2] }]
    fault := fun c => if c = .mkdirAll "/ws/d" then some "permission denied" else none }

/-! ## More of `os` and `path/filepath` -/

/-- What `os.Stat` tells about a path: an object is there, `os.IsNotExist` holds for
the error, or it is another error. -/
inductive StatResult
  | found (isDir : Bool)
  | notExist
  | failed (err : String)
deriving DecidableEq, Repr

/-- Model of `os.Stat(path)`; the file system is not changed.  The empty path does not
exist (`ENOENT`); a path that leads through a file is an error for which
`os.IsNotExist` does not hold (`ENOTDIR`). -/
def Stat (env : Env) (path : String) (fs : FS) : StatResult :=
  if path = "" then .notExist
  else
    match env.fault (.stat path) with
    | some err => .failed err
    | none =>
      if (withParents path).dropLast.any (fileExists fs.nodes) then .failed "not a directory"
      else if dirExists fs.nodes (Clean path) then .found true
      else if fileExists fs.nodes (Clean path) then .found false
      else .notExist

/-- Model of `os.Chmod(path, mode)`: the object must exist; permissions are not part
of the file system state. -/
def Chmod (env : Env) (path : String) (fs : FS) : Option String × FS :=
  match env.fault (.chmod path) with
  | some err => (some err, fs.record (.chmod path) (some err))
  | none =>
    if dirExists fs.nodes (Clean path) || fileExists fs.nodes (Clean path) then
      (none, fs.record (.chmod path) none)
    else
      (some "no such file or directory",
        fs.record (.chmod path) (some "no such file or directory"))

/-- The part of a path after its last `/` (the whole path without one). -/
def filePart (p : List Char) : List Char :=
  (p.reverse.takeWhile (fun c => c != '/')).reverse

/-- Model of `filepath.Split`: the path cut right after its last separator into a
directory part and a file name; without separator the directory part is empty. -/
def Split (path : String) : String × String :=
  (⟨dirPart path.data⟩, ⟨filePart path.data⟩)

/-- Replace every occurrence of the character `old` by `new`. -/
def replaceChar (old new : Char) (p : List Char) : List Char :=
  p.map (fun c => if c = old then new else c)

/-- Model of `strings.TrimPrefix(s, pre)`. -/
def TrimPrefix (s pre : String) : String :=
  if HasPrefix s pre then ⟨s.data.drop pre.data.length⟩ else s

/-- The function `CreateDir` of `os.go`: create the directory when `os.Stat` says that
nothing exists at the path. -/
def CreateDir (env : Env) (path : String) (fs : FS) : Option String × FS :=
  match Stat env path fs with
  | .notExist =>
    match MkdirAll env path fs with
    | (some err, fs1) => (some err, fs1)
    | (none, fs1) =>
      match Chmod env path fs1 with
      | (some err, fs2) => (some err, fs2)
      | (none, fs2) => (none, fs2)
  | _ => (none, fs)

/-! ## `server/handlers.go` and `server/api.go` -/

namespace Server

/-- What the upload handler reads of a request: the method, the `filename` segment
of the route (`mux.Vars`, empty when the route has none), the `filename` and
`directory` query parameters (empty when absent), and the body. -/
structure Request where
  Method : String
  pathFilename : String
  queryFilename : String
  queryDirectory : String
  Body : Option (List Nat)
deriving DecidableEq, Repr

/-- What a handler writes: the status code, the `Content-Type` header it sets (empty
when it sets none) and the body. -/
structure Response where
  status : Nat
  contentType : String
  body : String
deriving DecidableEq, Repr

/-- The function `writeJSONError`: status 500 and a body put together from the
message and the error text. -/
def writeJSONError (msg err : String) : Response :=
  { status := 500
    contentType := "application/json"
    body := "\x7b\"error\":true,\"message\":\"" ++ msg ++ "\",\"error\":\"" ++ err ++ "\"\x7d" }

/-- The function `writeJSONErrorWithCode`: as `writeJSONError`, with the given status. -/
def writeJSONErrorWithCode (msg err : String) (statusCode : Nat) : Response :=
  { status := statusCode
    contentType := "application/json"
    body := "\x7b\"error\":true,\"message\":\"" ++ msg ++ "\",\"error\":\"" ++ err ++ "\"\x7d" }

/-- The function `createDir` of the server, a copy of `CreateDir`. -/
def createDir (env : Env) (path : String) (fs : FS) : Option String × FS :=
  match Stat env path fs with
  | .notExist =>
    match MkdirAll env path fs with
    | (some err, fs1) => (some err, fs1)
    | (none, fs1) =>
      match Chmod env path fs1 with
      | (some err, fs2) => (some err, fs2)
      | (none, fs2) => (none, fs2)
  | _ => (none, fs)

/-- The file name the handler uses: the route segment, replaced by the `filename`
query parameter when that is not empty. -/
def effectiveName (r : Request) : String :=
  if r.queryFilename ≠ "" then r.queryFilename else r.pathFilename

/-- The part of `uploadFileHandler` that stores the body at `output`: `os.Create`,
`io.Copy` (which returns the number of bytes copied, the length of the body when it
returns no error), `os.Chmod`, then the plain-text answer. -/
def storeBody (env : Env) (output : String) (body : Option (List Nat)) (fs : FS) :
    Response × FS :=
  match body with
  | some b =>
    match OpenFile env output fs with
    | (some err, fs1) => (writeJSONError "error creating upload file" err, fs1)
    | (none, fs1) =>
      match Copy env output b fs1 with
      | (some err, fs2) => (writeJSONError "error writing upload file" err, fs2)
      | (none, fs2) =>
        match Chmod env output fs2 with
        | (some err, fs3) =>
          (writeJSONError "error setting permissions for upload file" err, fs3)
        | (none, fs3) =>
          ({ status := 200, contentType := "",
             body := toString b.length ++ " bytes recieved.\n" }, fs3)
  | none => (writeJSONError "error uploading file" "received empty body", fs)

/-- The path `output` at which `uploadFileHandler` stores the body:
`filepath.Join(srvFiles, dirPath, name)`. -/
def outputPath (srvFiles : String) (r : Request) : String :=
  JoinList [srvFiles, r.queryDirectory, effectiveName r]

/-- The function `uploadFileHandler`, for the file root `srvFiles`. -/
def uploadFileHandler (env : Env) (srvFiles : String) (r : Request) (fs : FS) :
    Response × FS :=
  if r.Method = "POST" then
    let name := effectiveName r
    if name = "" then
      (writeJSONError "error creating upload file" "filename not specified", fs)
    else
      let dirPath := r.queryDirectory
      let output := outputPath srvFiles r
      if dirPath = "/" ∨ dirPath = "" then storeBody env output r.Body fs
      else
        let d := Join srvFiles dirPath
        match createDir env d fs with
        | (some err, fs1) =>
          (writeJSONError ("error creating upload path \"" ++ d ++ "\"") err, fs1)
        | (none, fs1) => storeBody env output r.Body fs1
  else
    (writeJSONErrorWithCode "method not allowed" ("invalid method: " ++ r.Method) 405, fs)

/-- The struct `tls.Config`, as far as `getTLSConfig` fills it: the client-CA pool is
the list of certificates it holds, absent when no pool was made. -/
structure TLSConfig where
  ServerName : String
  ClientAuth : Nat
  ClientCAs : Option (List (List Nat))
  MinVersion : Nat
deriving DecidableEq, Repr

/-- The constant `tls.RequestClientCert`; the policies are `NoClientCert` = 0,
`RequestClientCert` = 1, `RequireAnyClientCert` = 2, `VerifyClientCertIfGiven` = 3 and
`RequireAndVerifyClientCert` = 4. -/
def RequestClientCert : Nat := 1

/-- The constant `tls.VersionTLS12`. -/
def VersionTLS12 : Nat := 0x0303

/-- The function `getTLSConfig` of the server.  `readFile` is `ioutil.ReadFile` and
`parsePEM` gives the certificates that `AppendCertsFromPEM` finds in a bundle; the
result is absent when `log.Fatal` ends the process. -/
def getTLSConfig (readFile : String → Except String (List Nat))
    (parsePEM : List Nat → List (List Nat)) (host caCertFile : String) (certOpt : Nat) :
    Option TLSConfig :=
  if certOpt > RequestClientCert then
    match readFile caCertFile with
    | .error _ => none
    | .ok caCert =>
      some { ServerName := host, ClientAuth := certOpt,
             ClientCAs := some ([] ++ parsePEM caCert), MinVersion := VersionTLS12 }
  else
    some { ServerName := host, ClientAuth := certOpt, ClientCAs := none,
           MinVersion := VersionTLS12 }

end Server

/-! ## `uploader/main.go` -/

/-- Model of `ioutil.ReadFile(path)`. -/
def ReadFile (env : Env) (path : String) (fs : FS) : Except String (List Nat) :=
  match env.fault (.openRead path) with
  | some err => .error err
  | none =>
    match fs.nodes.find? (fun n => n.1 == Clean path) with
    | none => .error "no such file or directory"
    | some (_, .dir) => .error "is a directory"
    | some (_, .file data) => .ok data

namespace Uploader

/-- The struct `DirFile` of the uploader: details for a file. -/
structure DirFile where
  Name : String
  FullPath : String
  OutPath : String
  IsDir : Bool
deriving DecidableEq, Repr

/-- The function `makeOutPath`: backslashes become slashes in both arguments, `root` is
the file part of `dir`, the text `dir` is trimmed from the front of `path`, and the
two are joined. -/
def makeOutPath (dir path : String) : String :=
  let dir : String := ⟨replaceChar (Char.ofNat 92) '/' dir.data⟩
  let path : String := ⟨replaceChar (Char.ofNat 92) '/' path.data⟩
  let root := (Split dir).2
  let p := TrimPrefix path dir
  Join root p

/-- What `filepath.WalkDir` passes to its callback for one visited object: the path,
the name and kind of the object, and the error met on the way to it, if any. -/
structure WalkEntry where
  path : String
  name : String
  isDir : Bool
  err : Option String
deriving DecidableEq, Repr

/-- The callback of `GetAllDirFiles` run over the objects that `filepath.WalkDir`
visits, in its order; `skipped` holds the directories for which the callback has
returned `filepath.SkipDir`, whose contents are not visited. -/
def walkFiles (dir : String) : List String → List WalkEntry → List DirFile
  | _, [] => []
  | skipped, e :: rest =>
    if skipped.any (fun d => HasPrefix e.path (d ++ "/")) then walkFiles dir skipped rest
    else
      match e.err with
      | some _ => walkFiles dir skipped rest
      | none =>
        if e.isDir then
          if e.name = ".git" then walkFiles dir (e.path :: skipped) rest
          else walkFiles dir skipped rest
        else
          { Name := e.name, FullPath := e.path, OutPath := makeOutPath dir e.path,
            IsDir := false } :: walkFiles dir skipped rest

/-- The function `GetAllDirFiles`: all the files found by walking `dir`, given the
objects the walk visits. -/
def GetAllDirFiles (walk : String → List WalkEntry) (dir : String) : List DirFile :=
  walkFiles dir [] (walk dir)

/-- The function `FileExists`. -/
def FileExists (env : Env) (filename : String) (fs : FS) : Bool :=
  match Stat env filename fs with
  | .notExist => false
  | _ => true

/-- The loop of `main` over the command-line arguments. -/
def argFiles (env : Env) (walk : String → List WalkEntry) (fs : FS) :
    List String → List DirFile
  | [] => []
  | a :: rest =>
    if FileExists env a fs then
      match Stat env a fs with
      | .found true => GetAllDirFiles walk a ++ argFiles env walk fs rest
      | .found false =>
        { Name := Base a, FullPath := a, OutPath := Base a, IsDir := false } ::
          argFiles env walk fs rest
      | _ => argFiles env walk fs rest
    else argFiles env walk fs rest

/-- An upload request: the URL it is sent to, the `directory` and `filename` query
parameters (empty when not added) and the body. -/
structure UploadRequest where
  url : String
  directory : String
  filename : String
  body : List Nat
deriving DecidableEq, Repr

/-- The loop `uploadDirFiles` of `main`: one request for every file that can be read,
with the out-path split into the `directory` and `filename` parameters. -/
def uploadDirFiles (env : Env) (fs : FS) (destinationURL : String) :
    List DirFile → List UploadRequest
  | [] => []
  | file :: rest =>
    match ReadFile env file.FullPath fs with
    | .error _ => uploadDirFiles env fs destinationURL rest
    | .ok b =>
      { url := destinationURL, directory := (Split file.OutPath).1,
        filename := (Split file.OutPath).2, body := b } ::
        uploadDirFiles env fs destinationURL rest

/-- What a run of the uploader does: the lines it prints, the requests it sends, and
the status it exits with. -/
structure Run where
  printed : List String
  requests : List UploadRequest
  exitCode : Nat
deriving DecidableEq, Repr

/-- The function `main` of the uploader, from the parsed flags on.  After the list of
files is built, the out-paths are printed and `os.Exit(0)` ends the process; the
statements after it, with the loop `uploadDirFiles`, are not reached. -/
def main (env : Env) (walk : String → List WalkEntry) (fs : FS)
    (_destinationURL uploadDirectory : String) (args : List String) : Run :=
  let dirFiles :=
    (if uploadDirectory ≠ "" then GetAllDirFiles walk uploadDirectory else []) ++
      argFiles env walk fs args
  if dirFiles.length < 1 then
    { printed := ["No Files to Upload, Exiting ..."], requests := [], exitCode := 0 }
  else
    { printed := dirFiles.map (fun a => a.OutPath), requests := [], exitCode := 0 }

end Uploader

/-! ## Notions used to state the properties of uploads and error bodies -/

/-- The path a call works on, when it has one. -/
def Call.path : Call → Option String
  | .readDir p => some p
  | .openRead p => some p
  | .read p => some p
  | .mkdirAll p => some p
  | .openFile p => some p
  | .write p _ => some p
  | .remove p => some p
  | .removeAll p => some p
  | .execute _ => none
  | .stat p => some p
  | .chmod p => some p

/-- Whether no element of the path is `..`. -/
def noDotDot (path : String) : Bool :=
  (splitSep path.data).all (fun seg => seg != ['.', '.'])

/-- Whether path `p` lies in or below directory `root`, lexically: both are rooted or
both are not, the cleaned elements of `root` begin those of `p`, and none of the
elements that follow is `..`. -/
def liesUnder (root p : String) : Bool :=
  (isRooted p.data == isRooted root.data) &&
    (cleanSegs root.data).isPrefixOf (cleanSegs p.data) &&
    !(((cleanSegs p.data).drop (cleanSegs root.data).length).contains ['.', '.'])

/-- Where a scan of a JSON text stands: between tokens, inside a string, or right
after a backslash inside a string. -/
inductive LexState
  | between
  | inString
  | escaped
deriving DecidableEq, Repr

/-- The characters that may stand outside the strings of a JSON text: white space,
the six structural characters, and the characters of numbers and of the literals
`true`, `false` and `null`. -/
def outsideChars : List Char :=
  [' ', '\n', '\r', '\t', Char.ofNat 123, Char.ofNat 125, '[', ']', ',', ':', '-', '+', '.',
    '0', '1', '2', '3', '4', '5', '6', '7', '8', '9', 'e', 'E', 't', 'r', 'u', 'f', 'a', 'l',
    's', 'n']

/-- The characters that may follow a backslash inside a JSON string. -/
def escapeChars : List Char :=
  [Char.ofNat 34, Char.ofNat 92, '/', 'b', 'f', 'n', 'r', 't', 'u']

/-- One step of the scan; nothing is returned when the character cannot stand there. -/
def lexStep (st : Option LexState) (c : Char) : Option LexState :=
  match st with
  | none => none
  | some .between =>
    if c = Char.ofNat 34 then some .inString
    else if outsideChars.contains c then some .between
    else none
  | some .inString =>
    if c = Char.ofNat 34 then some .between
    else if c = Char.ofNat 92 then some .escaped
    else if c.toNat < 32 then none
    else some .inString
  | some .escaped => if escapeChars.contains c then some .inString else none

/-- A condition every well-formed JSON text meets: its strings are closed, they hold
no raw control character and no wrong escape, and outside of them only characters
of JSON tokens occur. -/
def jsonLexOK (text : String) : Bool :=
  text.data.foldl lexStep (some .between) == some .between

/-! ## Concrete inputs for the server and the uploader -/

/-- A file system with the file root `/srv/files` of the server and nothing in it. -/
def rootFS : FS := { nodes := [("/srv", .dir), ("/srv/files", .dir)], calls := [] }

/-- The quiet environment in which `os.MkdirAll` is denied for `/srv/files/a/b`. -/
def uploadDeniedEnv : Env :=
  { quietEnv with
    fault := fun c => if c = .mkdirAll "/srv/files/a/b" then some "permission denied" else none }

/-- A file system in which `/data/x` is a file. -/
def fileInWayFS : FS := { nodes := [("/data", .dir), ("/data/x", .file [1])], calls := [] }

/-- A directory `up` with the two files `a.txt` and `b.txt`. -/
def twoFilesFS : FS :=
  { nodes := [("up", .dir), ("up/a.txt", .file [1]), ("up/b.txt", .file [2])], calls := [] }

/-- What walking `up` in `twoFilesFS` visits. -/
def twoFilesWalk (dir : String) : List Uploader.WalkEntry :=
  if dir = "up" then
    [{ path := "up", name := "up", isDir := true, err := none },
      { path := "up/a.txt", name := "a.txt", isDir := false, err := none },
      { path := "up/b.txt", name := "b.txt", isDir := false, err := none }]
  else []

/-- What walking `.` visits in a directory that holds the files `.env` and `env`. -/
def dotWalk (dir : String) : List Uploader.WalkEntry :=
  if dir = "." then
    [{ path := ".", name := ".", isDir := true, err := none },
      { path := ".env", name := ".env", isDir := false, err := none },
      { path := "env", name := "env", isDir := false, err := none }]
  else []

/-! ## Facts about cleaned paths -/

theorem splitSep_ne_nil (p : List Char) : splitSep p ≠ [] := by
  induction p with
  | nil => simp [splitSep]
  | cons c cs ih =>
    unfold splitSep
    split
    · simp
    · split <;> simp

theorem splitSep_append (a b : List Char) :
    splitSep (a ++ '/' :: b) = splitSep a ++ splitSep b := by
  induction a with
  | nil => simp [splitSep]
  | cons c cs ih =>
    by_cases hc : c = '/'
    · simp [splitSep, hc, ih]
    · cases hs : splitSep cs with
      | nil => exact absurd hs (splitSep_ne_nil cs)
      | cons s ss => simp [splitSep, hc, ih, hs]

theorem splitSep_no_sep (p : List Char) : ∀ s ∈ splitSep p, '/' ∉ s := by
  induction p with
  | nil => simp [splitSep]
  | cons c cs ih =>
    by_cases hc : c = '/'
    · intro s hs
      simp [splitSep, hc] at hs
      rcases hs with rfl | hs
      · simp
      · exact ih s hs
    · cases hsp : splitSep cs with
      | nil => exact absurd hsp (splitSep_ne_nil cs)
      | cons t ts =>
        intro s hs
        rw [hsp] at ih
        simp [splitSep, hc, hsp] at hs
        rcases hs with rfl | hs
        · have := ih t (by simp)
          simp only [List.mem_cons, not_or]
          exact ⟨fun h => hc h.symm, this⟩
        · exact ih s (by simp [hs])

theorem splitSep_of_no_sep (s : List Char) (h : '/' ∉ s) : splitSep s = [s] := by
  induction s with
  | nil => simp [splitSep]
  | cons c cs ih =>
    simp only [List.mem_cons, not_or] at h
    have hc : c ≠ '/' := fun e => h.1 e.symm
    simp [splitSep, hc, ih h.2]

theorem canonStk_of_all_dotdot (rest : List (List Char))
    (h : ∀ s ∈ rest, s = ['.', '.']) : CanonStk false rest := by
  induction rest with
  | nil => trivial
  | cons t ts ih =>
    right
    exact ⟨h t (by simp), rfl, fun s hs => h s (by simp [hs])⟩

theorem canonStk_tail (rooted : Bool) (top : List Char) (rest : List (List Char))
    (h : CanonStk rooted (top :: rest)) : CanonStk rooted rest := by
  rcases h with h | ⟨_, hr, hall⟩
  · exact h.2
  · subst hr
    exact canonStk_of_all_dotdot rest hall

theorem canonStk_suffix (rooted : Bool) (xs ys : List (List Char))
    (h : CanonStk rooted (xs ++ ys)) : CanonStk rooted ys := by
  induction xs with
  | nil => simpa using h
  | cons x xs ih => exact ih (canonStk_tail rooted x (xs ++ ys) h)

theorem cleanStep_canon (rooted : Bool) (stk : List (List Char)) (seg : List Char)
    (hs : '/' ∉ seg) (h : CanonStk rooted stk) : CanonStk rooted (cleanStep rooted stk seg) := by
  unfold cleanStep
  by_cases h1 : seg = []
  · simp [h1, h]
  by_cases h2 : seg = ['.']
  · simp [h2, h]
  by_cases h3 : seg = ['.', '.']
  · subst h3
    cases stk with
    | nil =>
      cases rooted
      · simp [canBacktrack, CanonStk]
      · simp [canBacktrack, CanonStk]
    | cons top rest =>
      by_cases ht : top = ['.', '.']
      · subst ht
        rcases h with h | ⟨_, hr, hall⟩
        · exact absurd rfl h.1.2.2.1
        · subst hr
          simp only [canBacktrack, bne_self_eq_false, Bool.false_eq_true, if_false]
          right
          refine ⟨rfl, rfl, ?_⟩
          intro s hs
          rcases List.mem_cons.1 hs with rfl | hs
          · rfl
          · exact hall s hs
      · have hb : canBacktrack (top :: rest) = true := by simp [canBacktrack, ht]
        simp only [hb, if_true, List.tail_cons]
        exact canonStk_tail rooted top rest h
  · simp only [h1, h2, h3, if_false]
    left
    exact ⟨⟨h1, h2, h3, hs⟩, h⟩

theorem foldl_cleanStep_canon (rooted : Bool) (segs : List (List Char)) :
    ∀ stk, (∀ s ∈ segs, '/' ∉ s) → CanonStk rooted stk →
      CanonStk rooted (segs.foldl (cleanStep rooted) stk) := by
  induction segs with
  | nil => intro stk _ h; simpa using h
  | cons s rest ih =>
    intro stk hs h
    simp only [List.foldl_cons]
    exact ih _ (fun t ht => hs t (by simp [ht]))
      (cleanStep_canon rooted stk s (hs s (by simp)) h)

theorem cleanSegs_canon (p : List Char) : CanonStk (isRooted p) (cleanSegs p).reverse := by
  unfold cleanSegs
  rw [List.reverse_reverse]
  exact foldl_cleanStep_canon _ _ [] (splitSep_no_sep p) trivial

theorem cleanStep_push (rooted : Bool) (acc : List (List Char)) (s : List Char)
    (h : CanonStk rooted (s :: acc)) : cleanStep rooted acc s = s :: acc := by
  unfold cleanStep
  rcases h with ⟨⟨h1, h2, h3, _⟩, _⟩ | ⟨hs, hr, hall⟩
  · simp [h1, h2, h3]
  · subst hs
    subst hr
    have hb : canBacktrack acc = false := by
      cases acc with
      | nil => rfl
      | cons t ts => simp [canBacktrack, hall t (by simp)]
    simp [hb]

theorem foldl_cleanStep_of_canon (rooted : Bool) (segs : List (List Char)) :
    ∀ acc, CanonStk rooted (segs.reverse ++ acc) →
      segs.foldl (cleanStep rooted) acc = segs.reverse ++ acc := by
  induction segs with
  | nil => intro acc _; simp
  | cons s rest ih =>
    intro acc h
    have h' : CanonStk rooted (rest.reverse ++ (s :: acc)) := by
      simpa using h
    have hs : CanonStk rooted (s :: acc) := canonStk_suffix rooted rest.reverse (s :: acc) h'
    simp only [List.foldl_cons, cleanStep_push rooted acc s hs]
    rw [ih (s :: acc) h']
    simp

theorem canonStk_mem (rooted : Bool) (stk : List (List Char)) (h : CanonStk rooted stk) :
    ∀ s ∈ stk, s ≠ [] ∧ s ≠ ['.'] ∧ '/' ∉ s := by
  induction stk with
  | nil => simp
  | cons t ts ih =>
    intro s hs
    rcases List.mem_cons.1 hs with rfl | hs
    · rcases h with ⟨⟨h1, h2, _, h4⟩, _⟩ | ⟨ht, _, _⟩
      · exact ⟨h1, h2, h4⟩
      · subst ht; decide
    · exact ih (canonStk_tail rooted t ts h) s hs

theorem splitSep_joinSegs (segs : List (List Char)) (hne : segs ≠ [])
    (h : ∀ s ∈ segs, '/' ∉ s) : splitSep (joinSegs segs) = segs := by
  induction segs with
  | nil => exact absurd rfl hne
  | cons s rest ih =>
    cases rest with
    | nil => simpa [joinSegs] using splitSep_of_no_sep s (h s (by simp))
    | cons t ts =>
      simp only [joinSegs]
      rw [splitSep_append, splitSep_of_no_sep s (h s (by simp)),
        ih (by simp) (fun u hu => h u (by simp [hu]))]
      simp

theorem isRooted_joinSegs (segs : List (List Char))
    (h : ∀ s ∈ segs, s ≠ [] ∧ '/' ∉ s) : isRooted (joinSegs segs) = false := by
  cases segs with
  | nil => rfl
  | cons s rest =>
    have hs := h s (by simp)
    cases s with
    | nil => exact absurd rfl hs.1
    | cons c cs =>
      have hc : c ≠ '/' := fun e => hs.2 (by simp [e])
      cases rest with
      | nil => simp [joinSegs, isRooted, hc]
      | cons t ts => simp [joinSegs, isRooted, hc]

theorem joinSegs_ne_nil (segs : List (List Char)) (hne : segs ≠ [])
    (h : ∀ s ∈ segs, s ≠ []) : joinSegs segs ≠ [] := by
  cases segs with
  | nil => exact absurd rfl hne
  | cons s rest =>
    cases rest with
    | nil => simpa [joinSegs] using h s (by simp)
    | cons t ts => simp [joinSegs]

/-- Cleaning the written form of a canonical element list gives it back. -/
theorem cleanChars_renderPath (rooted : Bool) (segs : List (List Char))
    (h : CanonStk rooted segs.reverse) :
    cleanChars (renderPath rooted segs) = renderPath rooted segs := by
  have hmem : ∀ s ∈ segs, s ≠ [] ∧ s ≠ ['.'] ∧ '/' ∉ s := fun s hs =>
    canonStk_mem rooted segs.reverse h s (by simpa using hs)
  have hfold : ∀ acc, acc = [] → segs.foldl (cleanStep rooted) acc = segs.reverse := by
    intro acc hacc
    subst hacc
    simpa using foldl_cleanStep_of_canon rooted segs [] (by simpa using h)
  cases rooted with
  | true =>
    have hr : renderPath true segs = '/' :: joinSegs segs := by simp [renderPath]
    have hseg : cleanSegs ('/' :: joinSegs segs) = segs := by
      unfold cleanSegs
      have hroot : isRooted ('/' :: joinSegs segs) = true := by simp [isRooted]
      rw [hroot]
      cases segs with
      | nil => simp [joinSegs, splitSep, cleanStep]
      | cons s rest =>
        have hsp : splitSep ('/' :: joinSegs (s :: rest)) = [] :: (s :: rest) := by
          have := splitSep_append [] (joinSegs (s :: rest))
          rw [List.nil_append] at this
          rw [this, splitSep_joinSegs (s :: rest) (by simp) (fun u hu => (hmem u hu).2.2)]
          simp [splitSep]
        have h0 : cleanStep true [] [] = [] := by simp [cleanStep]
        rw [hsp, List.foldl_cons, h0, hfold [] rfl]
        simp
    rw [hr]
    unfold cleanChars
    rw [hseg]
    simp [isRooted, renderPath]
  | false =>
    cases segs with
    | nil => simp [renderPath, joinSegs, cleanChars, cleanSegs, splitSep, cleanStep, isRooted]
    | cons s rest =>
      have hne : joinSegs (s :: rest) ≠ [] :=
        joinSegs_ne_nil _ (by simp) (fun u hu => (hmem u hu).1)
      have hr : renderPath false (s :: rest) = joinSegs (s :: rest) := by
        simp [renderPath, hne]
      have hroot : isRooted (joinSegs (s :: rest)) = false :=
        isRooted_joinSegs _ (fun u hu => ⟨(hmem u hu).1, (hmem u hu).2.2⟩)
      rw [hr]
      unfold cleanChars cleanSegs
      rw [hroot, splitSep_joinSegs (s :: rest) (by simp) (fun u hu => (hmem u hu).2.2),
        hfold [] rfl]
      simp [hr]

theorem cleanChars_idem (p : List Char) : cleanChars (cleanChars p) = cleanChars p := by
  unfold cleanChars
  exact cleanChars_renderPath (isRooted p) (cleanSegs p) (cleanSegs_canon p)

/-- Idempotence of `Clean`. -/
theorem Clean_idem (path : String) : Clean (Clean path) = Clean path := by
  unfold Clean
  simp only [cleanChars_idem]

/-! ## Classification of a script run -/

/-- The `switch` on the results of `Execute` logs and prints what the four-case
reference prescribes. -/
theorem reportScript_classify (name stdOut stdErr : String) (err : Option String) :
    reportScript name stdOut stdErr err = (classifyRef stdOut stdErr err).events name := by
  cases err with
  | some e =>
    by_cases h : stdErr = ""
    · simp [reportScript, classifyRef, Classification.events, h]
    · simp [reportScript, classifyRef, Classification.events, h, String.append_assoc]
  | none =>
    by_cases h : stdErr = ""
    · by_cases h2 : stdOut = ""
      · simp [reportScript, classifyRef, Classification.events, h, h2]
      · simp [reportScript, classifyRef, Classification.events, h, h2]
    · by_cases h2 : stdOut = ""
      · simp [reportScript, classifyRef, Classification.events, h, h2]
      · simp [reportScript, classifyRef, Classification.events, h, h2]

/-- C5: for every executor, every session and every listed entry, the loop body hands
the full path of a non-directory entry to `Execute` and classifies what comes back
by the four-case reference: with an error, a failure whose message is stderr, `; `
and the error text (the error text alone when stderr is empty); without error and
with stderr, a failure with message stderr, stdout printed when non-empty; with
only stdout, a success that prints stdout; with nothing, a silent success.  What
the client logs and prints for the entry is the line `executing script` followed
by exactly that; a directory gives nothing; and the loop goes on with the entries
that follow whatever the classification was. -/
theorem runScript_classifies_execute_result (env : Env) (pwsh : PowerShell)
    (script : DirFile) (fs : FS) :
    (pwsh.Execute env [script.FullPath] fs).1 =
        (env.run pwsh.powerShell ["-NoProfile", "-NonInteractive", script.FullPath]
          pwsh.workDir fs).1 ∧
      (runScript env pwsh script fs).1 =
        (if script.IsDir then []
          else
            Event.executing script.FullPath ::
              (classifyRef
                (env.run pwsh.powerShell ["-NoProfile", "-NonInteractive", script.FullPath]
                  pwsh.workDir fs).1.stdOut
                (env.run pwsh.powerShell ["-NoProfile", "-NonInteractive", script.FullPath]
                  pwsh.workDir fs).1.stdErr
                (env.run pwsh.powerShell ["-NoProfile", "-NonInteractive", script.FullPath]
                  pwsh.workDir fs).1.err).events script.Name) ∧
      ∀ rest, (runScripts env pwsh (script :: rest) fs).1 =
        (runScript env pwsh script fs).1 ++
          (runScripts env pwsh rest (runScript env pwsh script fs).2).1 := by
  refine ⟨rfl, ?_, ?_⟩
  · unfold runScript
    cases hd : script.IsDir
    · simp [PowerShell.Execute, reportScript_classify]
    · simp
  · intro rest
    rw [runScripts]

/-! ## Sorting -/

theorem strLess_eq_false_iff (a b : String) : strLess b a = false ↔ a.data ≤ b.data := by
  simp [strLess]

theorem SliceStable_perm {α : Type} (less : α → α → Bool) (l : List α) :
    (SliceStable less l).Perm l :=
  List.perm_insertionSort _ l

/-- Sorting by a string key with `strLess` leaves the keys in ascending order. -/
theorem SliceStable_sorted {α : Type} (key : α → String) (l : List α) :
    (SliceStable (fun a b => strLess (key a) (key b)) l).Sorted
      (fun a b => (key a).data ≤ (key b).data) := by
  have htot : IsTotal α (fun a b => strLess (key b) (key a) = false) :=
    ⟨fun a b => by
      simp only [strLess_eq_false_iff]
      exact le_total _ _⟩
  have htr : IsTrans α (fun a b => strLess (key b) (key a) = false) :=
    ⟨fun a b c => by
      simp only [strLess_eq_false_iff]
      exact le_trans⟩
  have h := List.sorted_insertionSort (fun a b => strLess (key b) (key a) = false) l
  unfold SliceStable
  exact List.Pairwise.imp (fun {a b} hab => (strLess_eq_false_iff _ _).1 hab) h

/-- Two orderings of the same elements, with pairwise different keys, sort to the
same list. -/
theorem SliceStable_perm_eq {α : Type} (key : α → String) (l₁ l₂ : List α)
    (hp : l₁.Perm l₂) (hnd : (l₂.map key).Nodup) :
    SliceStable (fun a b => strLess (key a) (key b)) l₁ =
      SliceStable (fun a b => strLess (key a) (key b)) l₂ := by
  have hanti : IsAntisymm α (fun a b => (key a).data < (key b).data) :=
    ⟨fun a b h1 h2 => absurd h1 (lt_asymm h2)⟩
  have strict : ∀ l : List α, l.Perm l₂ →
      (SliceStable (fun a b => strLess (key a) (key b)) l).Sorted
        (fun a b => (key a).data < (key b).data) := by
    intro l hl
    have hs := SliceStable_sorted key l
    have hperm : (SliceStable (fun a b => strLess (key a) (key b)) l).Perm l₂ :=
      (SliceStable_perm _ l).trans hl
    have hnd' : ((SliceStable (fun a b => strLess (key a) (key b)) l).map key).Nodup :=
      (hperm.map key).nodup_iff.2 hnd
    have hne : (SliceStable (fun a b => strLess (key a) (key b)) l).Pairwise
        (fun a b => key a ≠ key b) := by
      rw [List.Nodup, List.pairwise_map] at hnd'
      exact hnd'
    refine (hs.and hne).imp ?_
    intro a b hab
    refine lt_of_le_of_ne hab.1 ?_
    intro hd
    exact hab.2 (String.ext hd)
  exact List.eq_of_perm_of_sorted
    ((SliceStable_perm _ l₁).trans (hp.trans (SliceStable_perm _ l₂).symm))
    (strict l₁ hp) (strict l₂ (List.Perm.refl _))

/-! ## Listing a directory -/

theorem toDirFile_fullPath_of_child (dir : String) (n : String × Node)
    (h : isChildOf dir n.1 = true) :
    (toDirFile dir { Name := Base n.1, IsDir := n.2.isDir }).FullPath = n.1 := by
  simp only [isChildOf, Bool.and_eq_true, beq_iff_eq] at h
  exact h.2

/-- The full paths built for a listing are the paths of the immediate children that
the file system holds. -/
theorem listing_fullPaths_perm (env : Env) (dir : String) (fs : FS) (files : List FileInfo)
    (h : ReadDir env dir fs = .ok files) :
    ((SliceStable lessName (files.map (toDirFile dir))).map (fun f => f.FullPath)).Perm
      ((fs.nodes.filter (fun n => isChildOf dir n.1)).map (fun n => n.1)) := by
  have hp := (SliceStable_perm lessName (files.map (toDirFile dir))).map
    (fun f => f.FullPath)
  refine hp.trans ?_
  have hfiles : files = (fs.nodes.filter (fun n => isChildOf dir n.1)).map
      (fun n => ({ Name := Base n.1, IsDir := n.2.isDir } : FileInfo)) := by
    unfold ReadDir at h
    cases hf : env.fault (.readDir dir) with
    | some e => simp [hf] at h
    | none =>
      simp only [hf] at h
      injection h with h
      exact h.symm
  rw [hfiles, List.map_map, List.map_map]
  refine List.Perm.of_eq (List.map_congr_left ?_)
  intro n hn
  exact toDirFile_fullPath_of_child dir n (List.mem_filter.1 hn).2

/-- C8: whenever the directory can be read, `GetDirFiles` returns one `DirFile` per
reported child (same names and directory flags, nothing else), the full paths are
those of the immediate children held by the file system, each `FullPath` is the
directory joined with the name, the result is in ascending order of `Name`, and it
is the same for every order in which children with different names are reported. -/
theorem GetDirFiles_sorted_listing (env : Env) (dir : String) (fs : FS)
    (files : List FileInfo) (h : ReadDir env dir fs = .ok files) :
    ∃ l, GetDirFiles env dir fs = .ok l ∧
      (l.map (fun f => ({ Name := f.Name, IsDir := f.IsDir } : FileInfo))).Perm files ∧
      (l.map (fun f => f.FullPath)).Perm
        ((fs.nodes.filter (fun n => isChildOf dir n.1)).map (fun n => n.1)) ∧
      (∀ f ∈ l, f.FullPath = Join dir f.Name) ∧
      l.Sorted (fun a b => a.Name ≤ b.Name) ∧
      (∀ fs2 files2, ReadDir env dir fs2 = .ok files2 → files2.Perm files →
        (files.map (fun f => f.Name)).Nodup → GetDirFiles env dir fs2 = .ok l) := by
  have hless : lessName = fun a b => strLess (DirFile.Name a) (DirFile.Name b) := rfl
  refine ⟨SliceStable lessName (files.map (toDirFile dir)), ?_, ?_, ?_, ?_, ?_, ?_⟩
  · simp [GetDirFiles, h]
  · have hp := (SliceStable_perm lessName (files.map (toDirFile dir))).map
      (fun f => ({ Name := f.Name, IsDir := f.IsDir } : FileInfo))
    refine hp.trans ?_
    rw [List.map_map]
    have : ((fun f => ({ Name := f.Name, IsDir := f.IsDir } : FileInfo)) ∘ toDirFile dir) = id := by
      funext f
      rfl
    rw [this, List.map_id]
  · exact listing_fullPaths_perm env dir fs files h
  · intro f hf
    have hm : f ∈ files.map (toDirFile dir) :=
      (SliceStable_perm lessName (files.map (toDirFile dir))).mem_iff.1 hf
    rcases List.mem_map.1 hm with ⟨i, _, rfl⟩
    rfl
  · rw [hless]
    have hs := SliceStable_sorted DirFile.Name (files.map (toDirFile dir))
    exact List.Pairwise.imp (fun {a b} hab => String.le_iff_toList_le.2 hab) hs
  · intro fs2 files2 h2 hp hnd
    simp only [GetDirFiles, h2]
    rw [hless]
    congr 1
    refine SliceStable_perm_eq DirFile.Name _ _ (hp.map _) ?_
    rw [List.map_map]
    exact hnd

/-- The listing of the workspace `/ws` of `demoFS`, which reports `b`, `a`, `B`. -/
theorem GetDirFiles_sorted_listing_witness :
    ReadDir quietEnv "/ws" demoFS =
        .ok [{ Name := "b", IsDir := true }, { Name := "a", IsDir := false },
          { Name := "B", IsDir := false }] ∧
    ∃ l, GetDirFiles quietEnv "/ws" demoFS = .ok l ∧
      (l.map (fun f => ({ Name := f.Name, IsDir := f.IsDir } : FileInfo))).Perm
        [{ Name := "b", IsDir := true }, { Name := "a", IsDir := false },
          { Name := "B", IsDir := false }] ∧
      (l.map (fun f => f.FullPath)).Perm
        ((demoFS.nodes.filter (fun n => isChildOf "/ws" n.1)).map (fun n => n.1)) ∧
      (∀ f ∈ l, f.FullPath = Join "/ws" f.Name) ∧
      l.Sorted (fun a b => a.Name ≤ b.Name) ∧
      (∀ fs2 files2, ReadDir quietEnv "/ws" fs2 = .ok files2 →
        files2.Perm [{ Name := "b", IsDir := true }, { Name := "a", IsDir := false },
          { Name := "B", IsDir := false }] →
        (([{ Name := "b", IsDir := true }, { Name := "a", IsDir := false },
          { Name := "B", IsDir := false }] : List FileInfo).map (fun f => f.Name)).Nodup →
        GetDirFiles quietEnv "/ws" fs2 = .ok l) :=
  ⟨rfl, GetDirFiles_sorted_listing quietEnv "/ws" demoFS _ rfl⟩

/-! ## Archive discovery -/

theorem archiveNames_eq_filter (env : Env) (dir : String) (fs : FS) (files : List FileInfo) :
    archiveNames env dir fs files =
      (files.filter (fun f =>
        !f.IsDir && GetFileContentType env (Join dir f.Name) fs == "application/zip")).map
        (fun f => f.Name) := by
  induction files with
  | nil => rfl
  | cons f rest ih =>
    unfold archiveNames
    cases hd : f.IsDir
    · by_cases ht : GetFileContentType env (Join dir f.Name) fs = "application/zip"
      · simp [hd, ht, ih]
      · simp [hd, ht, ih]
    · simp [hd, ih]

/-- C10 (as stated, refuted): in the inbox `/in` the 4-byte file `notes.txt` starts
with the zip local-file signature, so it is sniffed as `application/zip` and
`GetArchiveFiles` returns it, although it cannot be opened as a zip archive. -/
theorem GetArchiveFiles_returns_invalid_zip :
    GetArchiveFiles sniffEnv "/in" inboxFS = .ok ["data.bin", "notes.txt"] ∧
      sniffEnv.zipOpen (Join "/in" "notes.txt") = .error "zip: not a valid zip file" :=
  ⟨rfl, rfl⟩

/-- C10 (amended): whenever the inbox can be read, `GetArchiveFiles` returns exactly
the names of the reported non-directory children whose content type, as sniffed by
`GetFileContentType`, is `application/zip`, whatever their names, in ascending
order. -/
theorem GetArchiveFiles_sniffed (env : Env) (dir : String) (fs : FS)
    (files : List FileInfo) (h : ReadDir env dir fs = .ok files) :
    ∃ names, GetArchiveFiles env dir fs = .ok names ∧
      names.Perm ((files.filter (fun f =>
        !f.IsDir && GetFileContentType env (Join dir f.Name) fs == "application/zip")).map
        (fun f => f.Name)) ∧
      names.Sorted (fun a b => a ≤ b) := by
  refine ⟨SliceStable strLess (archiveNames env dir fs files), ?_, ?_, ?_⟩
  · simp [GetArchiveFiles, h]
  · rw [← archiveNames_eq_filter]
    exact SliceStable_perm _ _
  · have hs := SliceStable_sorted (fun a : String => a) (archiveNames env dir fs files)
    exact List.Pairwise.imp (fun {a b} hab => String.le_iff_toList_le.2 hab) hs

/-- The inbox `/in`: the text file `a.zip` and the directory `c.zip` are left out, the
files `data.bin` and `notes.txt` that start with the zip signature are returned. -/
theorem GetArchiveFiles_sniffed_witness :
    ReadDir sniffEnv "/in" inboxFS =
        .ok [{ Name := "notes.txt", IsDir := false }, { Name := "a.zip", IsDir := false },
          { Name := "c.zip", IsDir := true }, { Name := "data.bin", IsDir := false }] ∧
    ∃ names, GetArchiveFiles sniffEnv "/in" inboxFS = .ok names ∧
      names.Perm ((([{ Name := "notes.txt", IsDir := false }, { Name := "a.zip", IsDir := false },
          { Name := "c.zip", IsDir := true }, { Name := "data.bin", IsDir := false }] :
          List FileInfo).filter (fun f =>
        !f.IsDir && GetFileContentType sniffEnv (Join "/in" f.Name) inboxFS ==
          "application/zip")).map (fun f => f.Name)) ∧
      names.Sorted (fun a b => a ≤ b) :=
  ⟨rfl, GetArchiveFiles_sniffed sniffEnv "/in" inboxFS _ rfl⟩

/-! ## Which scripts are executed -/

theorem executed_record (fs : FS) (c : Call) (err : Option String) :
    executed (fs.record c err).calls = executed fs.calls ++ c.executeArgs.toList := by
  cases h : c.executeArgs <;> simp [executed, FS.record, List.filterMap_append, h]

theorem executed_setNodes (fs : FS) (nodes : List (String × Node)) :
    executed (fs.setNodes nodes).calls = executed fs.calls := rfl

theorem MkdirAll_calls (env : Env) (path : String) (fs : FS) :
    (MkdirAll env path fs).2.calls = fs.calls ++ [(.mkdirAll path, (MkdirAll env path fs).1)] := by
  unfold MkdirAll
  split
  · rfl
  · split
    · rfl
    · simp only []
      split <;> rfl

theorem OpenFile_calls (env : Env) (path : String) (fs : FS) :
    (OpenFile env path fs).2.calls = fs.calls ++ [(.openFile path, (OpenFile env path fs).1)] := by
  unfold OpenFile
  split
  · rfl
  · simp only []
    split
    · rfl
    · split <;> rfl

theorem Copy_calls (env : Env) (path : String) (data : List Nat) (fs : FS) :
    (Copy env path data fs).2.calls =
      fs.calls ++ [(.write path data, (Copy env path data fs).1)] := by
  unfold Copy
  split <;> rfl

theorem Remove_calls (env : Env) (path : String) (fs : FS) :
    (Remove env path fs).2.calls = fs.calls ++ [(.remove path, (Remove env path fs).1)] := by
  unfold Remove
  split
  · rfl
  · simp only []
    split
    · rfl
    · split <;> rfl

theorem RemoveAll_calls (env : Env) (path : String) (fs : FS) :
    (RemoveAll env path fs).2.calls =
      fs.calls ++ [(.removeAll path, (RemoveAll env path fs).1)] := by
  unfold RemoveAll
  split <;> rfl

theorem executed_MkdirAll (env : Env) (path : String) (fs : FS) :
    executed (MkdirAll env path fs).2.calls = executed fs.calls := by
  simp [MkdirAll_calls, executed, List.filterMap_append, Call.executeArgs]

theorem executed_OpenFile (env : Env) (path : String) (fs : FS) :
    executed (OpenFile env path fs).2.calls = executed fs.calls := by
  simp [OpenFile_calls, executed, List.filterMap_append, Call.executeArgs]

theorem executed_Copy (env : Env) (path : String) (data : List Nat) (fs : FS) :
    executed (Copy env path data fs).2.calls = executed fs.calls := by
  simp [Copy_calls, executed, List.filterMap_append, Call.executeArgs]

theorem executed_Remove (env : Env) (path : String) (fs : FS) :
    executed (Remove env path fs).2.calls = executed fs.calls := by
  simp [Remove_calls, executed, List.filterMap_append, Call.executeArgs]

theorem executed_RemoveAll (env : Env) (path : String) (fs : FS) :
    executed (RemoveAll env path fs).2.calls = executed fs.calls := by
  simp [RemoveAll_calls, executed, List.filterMap_append, Call.executeArgs]

theorem executed_unzipEntry (env : Env) (dstDir : String) (f : ZipFile) (fs : FS) :
    executed (unzipEntry env dstDir f fs).2.calls = executed fs.calls := by
  unfold unzipEntry
  simp only []
  split
  · rfl
  · split
    · exact executed_MkdirAll _ _ _
    · have h1 := executed_MkdirAll env (Dir (Join dstDir f.Name)) fs
      split
      · rename_i hm
        rw [hm] at h1
        exact h1
      · rename_i fs1 hm
        rw [hm] at h1
        have h2 := executed_OpenFile env (Join dstDir f.Name) fs1
        split
        · rename_i ho
          rw [ho] at h2
          exact h2.trans h1
        · rename_i fs2 ho
          rw [ho] at h2
          have h3 := executed_Copy env (Join dstDir f.Name) f.Body fs2
          split
          · exact h2.trans h1
          · split
            · rename_i hc
              rw [hc] at h3
              exact h3.trans (h2.trans h1)
            · rename_i hc
              rw [hc] at h3
              exact h3.trans (h2.trans h1)

theorem executed_unzipLoop (env : Env) (dstDir : String) (archive : List ZipFile) :
    ∀ fs, executed (unzipLoop env dstDir archive fs).2.calls = executed fs.calls := by
  induction archive with
  | nil => intro fs; rfl
  | cons f rest ih =>
    intro fs
    unfold unzipLoop
    have h := executed_unzipEntry env dstDir f fs
    cases hu : unzipEntry env dstDir f fs with
    | mk e fs1 =>
      rw [hu] at h
      cases e with
      | some err => simpa using h
      | none => simpa [h] using ih fs1

theorem executed_UnZip (env : Env) (srcFile dstDir : String) (fs : FS) :
    executed (UnZip env srcFile dstDir fs).2.calls = executed fs.calls := by
  unfold UnZip
  split
  · rfl
  · exact executed_unzipLoop _ _ _ _

theorem executed_cleanLoop (env : Env) (files : List DirFile) :
    ∀ errFiles errd fs,
      executed (cleanLoop env files errFiles errd fs).2.2.calls = executed fs.calls := by
  induction files with
  | nil => intro _ _ fs; rfl
  | cons f rest ih =>
    intro errFiles errd fs
    unfold cleanLoop
    have h : executed (if f.IsDir = true then RemoveAll env f.FullPath fs
        else Remove env f.FullPath fs).2.calls = executed fs.calls := by
      split
      · exact executed_RemoveAll _ _ _
      · exact executed_Remove _ _ _
    cases hr : (if f.IsDir = true then RemoveAll env f.FullPath fs
        else Remove env f.FullPath fs) with
    | mk e fs1 =>
      rw [hr] at h
      cases e with
      | some err => simpa [h] using ih (errFiles ++ [f.Name]) (some err) fs1
      | none => simpa [h] using ih errFiles errd fs1

theorem executed_CleanDirectory (env : Env) (path : String) (fs : FS) :
    executed (CleanDirectory env path fs).2.calls = executed fs.calls := by
  unfold CleanDirectory
  split
  · rfl
  · rename_i files _
    have h := executed_cleanLoop env files [] none fs
    cases hc : cleanLoop env files [] none fs with
    | mk ef rest =>
      cases rest with
      | mk ed fs1 =>
        rw [hc] at h
        simp only []
        split <;> simpa using h

theorem executed_runScript (env : Env) (pwsh : PowerShell) (s : DirFile) (fs : FS) :
    executed (runScript env pwsh s fs).2.calls =
      executed fs.calls ++ (if s.IsDir then [] else [[s.FullPath]]) := by
  unfold runScript
  cases hd : s.IsDir
  · simp [PowerShell.Execute, executed_record, executed_setNodes, Call.executeArgs]
  · simp

theorem executed_runScripts (env : Env) (pwsh : PowerShell) (listed : List DirFile) :
    ∀ fs, executed (runScripts env pwsh listed fs).2.calls =
      executed fs.calls ++ (listed.filter (fun s => !s.IsDir)).map (fun s => [s.FullPath]) := by
  induction listed with
  | nil => intro fs; simp [runScripts]
  | cons s rest ih =>
    intro fs
    have h := executed_runScript env pwsh s fs
    have h2 := ih (runScript env pwsh s fs).2
    have hstep : (runScripts env pwsh (s :: rest) fs).2 =
        (runScripts env pwsh rest (runScript env pwsh s fs).2).2 := by
      rw [runScripts]
    rw [hstep, h2, h]
    cases hd : s.IsDir <;> simp [hd]

theorem GetDirFiles_ok (env : Env) (dir : String) (fs : FS) (l : List DirFile)
    (h : GetDirFiles env dir fs = .ok l) :
    ∃ files, ReadDir env dir fs = .ok files ∧
      l = SliceStable lessName (files.map (toDirFile dir)) := by
  unfold GetDirFiles at h
  cases hr : ReadDir env dir fs with
  | error e => simp [hr] at h
  | ok files =>
    simp only [hr] at h
    injection h with h
    exact ⟨files, rfl, h.symm⟩

theorem GetDirFiles_sorted (env : Env) (dir : String) (fs : FS) (l : List DirFile)
    (h : GetDirFiles env dir fs = .ok l) : l.Sorted (fun a b => a.Name ≤ b.Name) := by
  obtain ⟨files, -, rfl⟩ := GetDirFiles_ok env dir fs l h
  have hs := SliceStable_sorted DirFile.Name (files.map (toDirFile dir))
  exact List.Pairwise.imp (fun {a b} hab => String.le_iff_toList_le.2 hab) hs

theorem GetDirFiles_fullPath (env : Env) (dir : String) (fs : FS) (l : List DirFile)
    (h : GetDirFiles env dir fs = .ok l) : ∀ f ∈ l, f.FullPath = Join dir f.Name := by
  obtain ⟨files, -, rfl⟩ := GetDirFiles_ok env dir fs l h
  intro f hf
  have hm : f ∈ files.map (toDirFile dir) :=
    (SliceStable_perm lessName (files.map (toDirFile dir))).mem_iff.1 hf
  rcases List.mem_map.1 hm with ⟨i, _, rfl⟩
  rfl

theorem processArchive_snd (env : Env) (pwsh : PowerShell) (scripts workspace f : String)
    (fs : FS) :
    (processArchive env pwsh scripts workspace f fs).2 =
      (CleanDirectory env workspace (extractAndRun env pwsh scripts workspace f fs).2).2 := by
  unfold processArchive
  cases extractAndRun env pwsh scripts workspace f fs with
  | mk ev fs2 =>
    simp only []
    cases hc : CleanDirectory env workspace fs2 with
    | mk e2 fs3 => cases e2 <;> rfl

theorem executed_extractAndRun (env : Env) (pwsh : PowerShell) (scripts workspace f : String)
    (fs : FS) (listed : List DirFile)
    (h : GetDirFiles env workspace (UnZip env (Join scripts f) workspace fs).2 = .ok listed) :
    executed (extractAndRun env pwsh scripts workspace f fs).2.calls =
      executed fs.calls ++ (listed.filter (fun s => !s.IsDir)).map (fun s => [s.FullPath]) := by
  unfold extractAndRun
  simp only [h]
  rw [executed_runScripts, executed_UnZip]

/-- C6: when the workspace can be listed after the extraction, the argument lists
passed to `Execute` while one archive is processed are exactly the full paths of
the listed non-directory entries, one call each, in the order of the listing, which
is ascending in `Name`; this holds whatever the executor returns or does.  The full
path of each entry is the workspace joined with its name, and the listed entries
are the immediate children of the workspace, so nothing below a directory is
executed. -/
theorem processArchive_executes_listing (env : Env) (pwsh : PowerShell)
    (scripts workspace f : String) (fs : FS) (listed : List DirFile)
    (h : GetDirFiles env workspace (UnZip env (Join scripts f) workspace fs).2 = .ok listed) :
    executed (processArchive env pwsh scripts workspace f fs).2.calls =
        executed fs.calls ++
          (listed.filter (fun s => !s.IsDir)).map (fun s => [s.FullPath]) ∧
      listed.Sorted (fun a b => a.Name ≤ b.Name) ∧
      (∀ s ∈ listed, s.FullPath = Join workspace s.Name) ∧
      (listed.map (fun s => s.FullPath)).Perm
        (((UnZip env (Join scripts f) workspace fs).2.nodes.filter
          (fun n => isChildOf workspace n.1)).map (fun n => n.1)) := by
  refine ⟨?_, GetDirFiles_sorted _ _ _ _ h, GetDirFiles_fullPath _ _ _ _ h, ?_⟩
  · rw [processArchive_snd, executed_CleanDirectory]
    exact executed_extractAndRun env pwsh scripts workspace f fs listed h
  · obtain ⟨files, hr, rfl⟩ := GetDirFiles_ok _ _ _ _ h
    exact listing_fullPaths_perm _ _ _ files hr

/-! ## Purging a directory -/

theorem Remove_nodes (env : Env) (path : String) (fs : FS) :
    (∀ n ∈ (Remove env path fs).2.nodes, n ∈ fs.nodes) ∧
      ((Remove env path fs).1 = none →
        ∀ n ∈ (Remove env path fs).2.nodes, n.1 ≠ Clean path) := by
  unfold Remove
  split
  · simp [FS.record]
  · simp only []
    split
    · simp [FS.record]
    · split
      · simp [FS.record]
      · refine ⟨?_, fun _ => ?_⟩
        · intro n hn
          simp only [FS.record, FS.setNodes] at hn
          exact (List.mem_filter.1 hn).1
        · intro n hn
          simp only [FS.record, FS.setNodes] at hn
          simpa using (List.mem_filter.1 hn).2

theorem RemoveAll_nodes (env : Env) (path : String) (fs : FS) :
    (∀ n ∈ (RemoveAll env path fs).2.nodes, n ∈ fs.nodes) ∧
      ((RemoveAll env path fs).1 = none →
        ∀ n ∈ (RemoveAll env path fs).2.nodes, n.1 ≠ Clean path) := by
  unfold RemoveAll
  split
  · simp [FS.record]
  · refine ⟨?_, fun _ => ?_⟩
    · intro n hn
      simp only [FS.record, FS.setNodes] at hn
      exact (List.mem_filter.1 hn).1
    · intro n hn
      simp only [FS.record, FS.setNodes] at hn
      have h := (List.mem_filter.1 hn).2
      intro he
      simp [inTree, he] at h

/-- One deletion of `CleanDirectory`: the call it records, and what is left. -/
theorem delete_step (env : Env) (f : DirFile) (fs : FS) :
    let r := (if f.IsDir = true then RemoveAll env f.FullPath fs else Remove env f.FullPath fs)
    r.2.calls = fs.calls ++ [(delCall f, r.1)] ∧
      (∀ n ∈ r.2.nodes, n ∈ fs.nodes) ∧
      (r.1 = none → ∀ n ∈ r.2.nodes, n.1 ≠ Clean f.FullPath) := by
  cases hd : f.IsDir
  · simp only [Bool.false_eq_true, if_false, delCall, hd]
    exact ⟨Remove_calls _ _ _, Remove_nodes _ _ _⟩
  · simp only [if_true, delCall, hd]
    exact ⟨RemoveAll_calls _ _ _, RemoveAll_nodes _ _ _⟩

theorem cleanLoop_cons (env : Env) (f : DirFile) (rest : List DirFile)
    (errFiles : List String) (errd : Option String) (fs : FS) (o : Option String) (fs1 : FS)
    (h : (if f.IsDir = true then RemoveAll env f.FullPath fs else Remove env f.FullPath fs) =
      (o, fs1)) :
    cleanLoop env (f :: rest) errFiles errd fs =
      cleanLoop env rest (errFiles ++ failedNames [f] [o]) (lastError errd [o]) fs1 := by
  rw [cleanLoop, h]
  cases o <;> simp [failedNames, lastError]

/-- The loop of `CleanDirectory`: every listed file is deleted in turn, the files
whose deletion fails are collected with the last error, and nothing is added to the
file system. -/
theorem cleanLoop_spec (env : Env) (files : List DirFile) :
    ∀ errFiles errd fs,
      ∃ outcomes : List (Option String), outcomes.length = files.length ∧
        (cleanLoop env files errFiles errd fs).2.2.calls =
          fs.calls ++ List.zipWith (fun f o => (delCall f, o)) files outcomes ∧
        (cleanLoop env files errFiles errd fs).1 = errFiles ++ failedNames files outcomes ∧
        (cleanLoop env files errFiles errd fs).2.1 = lastError errd outcomes ∧
        (∀ n ∈ (cleanLoop env files errFiles errd fs).2.2.nodes, n ∈ fs.nodes) ∧
        (∀ p ∈ files.zip outcomes, p.2 = none →
          ∀ n ∈ (cleanLoop env files errFiles errd fs).2.2.nodes, n.1 ≠ Clean p.1.FullPath) := by
  induction files with
  | nil =>
    intro errFiles errd fs
    exact ⟨[], rfl, by simp [cleanLoop], by simp [cleanLoop, failedNames],
      by simp [cleanLoop, lastError], by simp [cleanLoop], by simp⟩
  | cons f rest ih =>
    intro errFiles errd fs
    have hstep := delete_step env f fs
    cases hr : (if f.IsDir = true then RemoveAll env f.FullPath fs
        else Remove env f.FullPath fs) with
    | mk o fs1 =>
      simp only [hr] at hstep
      obtain ⟨hcalls, hsub, hgone⟩ := hstep
      rw [cleanLoop_cons env f rest errFiles errd fs o fs1 hr]
      obtain ⟨outs, hlen, hc, hn, he, hs, hg⟩ :=
        ih (errFiles ++ failedNames [f] [o]) (lastError errd [o]) fs1
      refine ⟨o :: outs, by simp [hlen], ?_, ?_, ?_, ?_, ?_⟩
      · rw [hc, hcalls]
        simp
      · rw [hn]
        cases o <;> simp [failedNames]
      · rw [he]
        cases o <;> simp [lastError]
      · intro n hnn
        exact hsub n (hs n hnn)
      · intro p hp hnone n hnn
        simp only [List.zip_cons_cons, List.mem_cons] at hp
        rcases hp with rfl | hp
        · exact hgone hnone n (hs n hnn)
        · exact hg p hp hnone n hnn

theorem renderPath_ne_nil (rooted : Bool) (segs : List (List Char)) :
    renderPath rooted segs ≠ [] := by
  unfold renderPath
  simp only []
  by_cases hb : (if rooted = true then ['/'] else []) ++ joinSegs segs = []
  · rw [if_pos hb]
    simp
  · rw [if_neg hb]
    exact hb

theorem Clean_ne_empty (path : String) : Clean path ≠ "" := by
  intro h
  have hd : (Clean path).data = [] := by rw [h]
  exact renderPath_ne_nil _ _ hd

theorem Base_ne_empty (path : String) : Base path ≠ "" := by
  unfold Base
  split
  · decide
  · simp only []
    split
    · decide
    · rename_i hl
      intro h
      apply hl
      have := congrArg String.data h
      simpa using this

theorem Clean_Join (a b : String) (hb : b ≠ "") : Clean (Join a b) = Join a b := by
  unfold Join JoinList
  by_cases ha : a = ""
  · simp only [ha, if_true]
    unfold JoinList
    simp only [hb, if_false]
    exact Clean_idem _
  · simp only [ha, if_false]
    exact Clean_idem _

theorem Clean_child (dir k : String) (h : isChildOf dir k = true) : Clean k = k := by
  simp only [isChildOf, Bool.and_eq_true, beq_iff_eq] at h
  have := Clean_Join dir (Base k) (Base_ne_empty k)
  rw [h.2] at this
  exact this

theorem ReadDir_ok (env : Env) (dir : String) (fs : FS) (files : List FileInfo)
    (h : ReadDir env dir fs = .ok files) :
    env.fault (.readDir dir) = none ∧
      files = (fs.nodes.filter (fun n => isChildOf dir n.1)).map
        (fun n => ({ Name := Base n.1, IsDir := n.2.isDir } : FileInfo)) := by
  unfold ReadDir at h
  cases hf : env.fault (.readDir dir) with
  | some e => simp [hf] at h
  | none =>
    simp only [hf] at h
    injection h with h
    exact ⟨rfl, h.symm⟩

/-- Every immediate child held by the file system is among the listed files, under
its own path. -/
theorem GetDirFiles_mem_of_child (env : Env) (dir : String) (fs : FS) (l : List DirFile)
    (h : GetDirFiles env dir fs = .ok l) (n : String × Node) (hn : n ∈ fs.nodes)
    (hc : isChildOf dir n.1 = true) : ∃ f ∈ l, f.FullPath = n.1 := by
  obtain ⟨files, hr, rfl⟩ := GetDirFiles_ok env dir fs l h
  obtain ⟨-, rfl⟩ := ReadDir_ok env dir fs files hr
  refine ⟨toDirFile dir { Name := Base n.1, IsDir := n.2.isDir }, ?_,
    toDirFile_fullPath_of_child dir n hc⟩
  refine (SliceStable_perm lessName _).mem_iff.2 ?_
  refine List.mem_map.2 ⟨{ Name := Base n.1, IsDir := n.2.isDir }, ?_, rfl⟩
  exact List.mem_map.2 ⟨n, List.mem_filter.2 ⟨hn, hc⟩, rfl⟩

/-- The listed files are not the directory itself. -/
theorem GetDirFiles_ne_dir (env : Env) (dir : String) (fs : FS) (l : List DirFile)
    (h : GetDirFiles env dir fs = .ok l) : ∀ f ∈ l, f.FullPath ≠ Clean dir := by
  obtain ⟨files, hr, rfl⟩ := GetDirFiles_ok env dir fs l h
  obtain ⟨-, rfl⟩ := ReadDir_ok env dir fs files hr
  intro f hf
  have hm := (SliceStable_perm lessName _).mem_iff.1 hf
  simp only [List.map_map, List.mem_map, List.mem_filter, Function.comp] at hm
  obtain ⟨n, ⟨_, hc⟩, rfl⟩ := hm
  rw [toDirFile_fullPath_of_child dir n hc]
  simp only [isChildOf, Bool.and_eq_true, bne_iff_ne, beq_iff_eq] at hc
  exact hc.1.2

theorem exists_zip_of_mem {α β : Type} (a : α) :
    ∀ (l₁ : List α) (l₂ : List β), l₂.length = l₁.length → a ∈ l₁ →
      ∃ b, (a, b) ∈ l₁.zip l₂ := by
  intro l₁
  induction l₁ with
  | nil => intro _ _ h; simp at h
  | cons x xs ih =>
    intro l₂ hlen ha
    cases l₂ with
    | nil => simp at hlen
    | cons y ys =>
      rcases List.mem_cons.1 ha with rfl | ha
      · exact ⟨y, by simp⟩
      · obtain ⟨b, hb⟩ := ih ys (by simpa using hlen) ha
        exact ⟨b, by simp [hb]⟩

theorem failedNames_eq_nil_iff (files : List DirFile) (outcomes : List (Option String)) :
    failedNames files outcomes = [] ↔ ∀ p ∈ files.zip outcomes, p.2 = none := by
  unfold failedNames
  rw [List.map_eq_nil_iff, List.filter_eq_nil_iff]
  constructor
  · intro h p hp
    have := h p hp
    cases hp2 : p.2 with
    | none => rfl
    | some e => simp [hp2] at this
  · intro h p hp
    simp [h p hp]

theorem all_none_of_zip (files : List DirFile) :
    ∀ outcomes : List (Option String), outcomes.length = files.length →
      ((∀ p ∈ files.zip outcomes, p.2 = none) ↔ ∀ o ∈ outcomes, o = none) := by
  induction files with
  | nil =>
    intro outcomes hlen
    cases outcomes with
    | nil => simp
    | cons o os => simp at hlen
  | cons f rest ih =>
    intro outcomes hlen
    cases outcomes with
    | nil => simp at hlen
    | cons o os =>
      have := ih os (by simpa using hlen)
      simp only [List.zip_cons_cons, List.mem_cons, forall_eq_or_imp, this]

/-- What `CleanDirectory` amounts to once the directory has been listed. -/
theorem CleanDirectory_of_listing (env : Env) (path : String) (fs : FS) (files : List DirFile)
    (h : GetDirFiles env path fs = .ok files) :
    CleanDirectory env path fs =
      (if (cleanLoop env files [] none fs).1.length > 0 then
          some ("error deleting " ++ toString (cleanLoop env files [] none fs).1.length ++
            " files: " ++ showNames (cleanLoop env files [] none fs).1 ++ " : lasterr: " ++
            showErr (cleanLoop env files [] none fs).2.1)
        else none,
        (cleanLoop env files [] none fs).2.2) := by
  unfold CleanDirectory
  rw [h]
  simp only []
  split <;> rfl

/-- When `CleanDirectory` returns no error, the directory has no child left. -/
theorem CleanDirectory_none_empty (env : Env) (path : String) (fs : FS)
    (h : (CleanDirectory env path fs).1 = none) :
    ReadDir env path (CleanDirectory env path fs).2 = .ok [] := by
  cases hg : GetDirFiles env path fs with
  | error e =>
    unfold CleanDirectory at h
    simp [hg] at h
  | ok files =>
    rw [CleanDirectory_of_listing env path fs files hg] at h ⊢
    obtain ⟨outs, hlen, -, hn, -, hs, hgone⟩ := cleanLoop_spec env files [] none fs
    obtain ⟨lst, hr, -⟩ := GetDirFiles_ok env path fs files hg
    obtain ⟨hfault, -⟩ := ReadDir_ok env path fs lst hr
    have hnil : failedNames files outs = [] := by
      by_cases hl : (cleanLoop env files [] none fs).1.length > 0
      · simp [hl] at h
      · have : (cleanLoop env files [] none fs).1 = [] :=
          List.length_eq_zero.1 (by omega)
        simpa [hn] using this
    have hall := (failedNames_eq_nil_iff files outs).1 hnil
    have hempty : (cleanLoop env files [] none fs).2.2.nodes.filter
        (fun n => isChildOf path n.1) = [] := by
      rw [List.filter_eq_nil_iff]
      intro n hnn hc
      obtain ⟨f, hf, hfp⟩ := GetDirFiles_mem_of_child env path fs files hg n (hs n hnn) hc
      obtain ⟨o, ho⟩ := exists_zip_of_mem f files outs hlen hf
      have := hgone (f, o) ho (hall (f, o) ho) n hnn
      simp only [hfp, Clean_child path n.1 hc] at this
      exact this rfl
    simp only [ReadDir, hfault, hempty, List.map_nil]

theorem joinWith_infix (sep : String) (names : List String) (n : String) (h : n ∈ names) :
    n.data <:+: (joinWith sep names).data := by
  induction names with
  | nil => simp at h
  | cons x xs ih =>
    cases xs with
    | nil =>
      simp only [List.mem_singleton] at h
      subst h
      exact List.infix_refl _
    | cons y ys =>
      simp only [joinWith, String.data_append]
      rcases List.mem_cons.1 h with rfl | h
      · exact (List.prefix_append _ _).isInfix.trans (List.prefix_append _ _).isInfix
      · exact (ih h).trans (List.suffix_append _ _).isInfix

theorem lastError_all_none (errd : Option String) (outs : List (Option String))
    (h : ∀ o ∈ outs, o = none) : lastError errd outs = errd := by
  induction outs generalizing errd with
  | nil => rfl
  | cons o rest ih =>
    have ho := h o (by simp)
    subst ho
    simpa [lastError] using ih errd (fun o ho => h o (by simp [ho]))

/-- With a failed call among the outcomes, `lastError` is the error of the last one. -/
theorem lastError_spec (outs : List (Option String)) :
    ∀ errd, (∃ o ∈ outs, o ≠ none) →
      ∃ e pre post, outs = pre ++ some e :: post ∧ (∀ o ∈ post, o = none) ∧
        lastError errd outs = some e := by
  induction outs with
  | nil => intro _ h; simp at h
  | cons o rest ih =>
    intro errd _
    by_cases hrest : ∃ o ∈ rest, o ≠ none
    · have step : ∀ errd', ∃ e pre post, o :: rest = pre ++ some e :: post ∧
          (∀ o ∈ post, o = none) ∧ lastError errd' rest = some e := by
        intro errd'
        obtain ⟨e, pre, post, hsplit, hpost, hl⟩ := ih errd' hrest
        exact ⟨e, o :: pre, post, by simp [hsplit], hpost, hl⟩
      cases o with
      | none => simpa [lastError] using step errd
      | some e0 => simpa [lastError] using step (some e0)
    · have hall : ∀ o ∈ rest, o = none := by
        intro o' ho'
        by_contra hne
        exact hrest ⟨o', ho', hne⟩
      cases o with
      | none =>
        rename_i h
        obtain ⟨o', ho', hne⟩ := h
        rcases List.mem_cons.1 ho' with rfl | ho'
        · exact absurd rfl hne
        · exact absurd (hall o' ho') hne
      | some e0 =>
        refine ⟨e0, [], rest, rfl, hall, ?_⟩
        simp only [lastError]
        exact lastError_all_none _ _ hall

theorem mem_failedNames (files : List DirFile) (outs : List (Option String))
    (p : DirFile × Option String) (hp : p ∈ files.zip outs) (hne : p.2 ≠ none) :
    p.1.Name ∈ failedNames files outs := by
  unfold failedNames
  refine List.mem_map.2 ⟨p, List.mem_filter.2 ⟨hp, ?_⟩, rfl⟩
  cases h : p.2 with
  | none => exact absurd h hne
  | some e => rfl

/-- C9: once the directory is listed, `CleanDirectory` calls one deletion for every
listed child, in order and whatever the outcome of the earlier ones (`os.RemoveAll`
for a directory, `os.Remove` otherwise), and none for the directory itself.  It
returns no error exactly when every deletion succeeded, and the directory then has
no child left; otherwise the error counts and names every child whose deletion
failed and ends with the error of the last failed deletion. -/
theorem CleanDirectory_best_effort (env : Env) (path : String) (fs : FS)
    (files : List DirFile) (h : GetDirFiles env path fs = .ok files) :
    ∃ outcomes : List (Option String), outcomes.length = files.length ∧
      (CleanDirectory env path fs).2.calls =
        fs.calls ++ List.zipWith (fun f o => (delCall f, o)) files outcomes ∧
      (∀ f ∈ files, f.FullPath = Join path f.Name ∧ f.FullPath ≠ Clean path) ∧
      ((CleanDirectory env path fs).1 = none ↔ ∀ o ∈ outcomes, o = none) ∧
      ((CleanDirectory env path fs).1 = none →
        ReadDir env path (CleanDirectory env path fs).2 = .ok []) ∧
      (∀ msg, (CleanDirectory env path fs).1 = some msg →
        msg = "error deleting " ++ toString (failedNames files outcomes).length ++
            " files: " ++ showNames (failedNames files outcomes) ++ " : lasterr: " ++
            showErr (lastError none outcomes) ∧
          (∀ p ∈ files.zip outcomes, p.2 ≠ none → p.1.Name.data <:+: msg.data) ∧
          ∃ e pre post, outcomes = pre ++ some e :: post ∧ (∀ o ∈ post, o = none) ∧
            lastError none outcomes = some e ∧ e.data <:+ msg.data) := by
  obtain ⟨outs, hlen, hc, hn, he, -, -⟩ := cleanLoop_spec env files [] none fs
  have hnone := CleanDirectory_none_empty env path fs
  have hval := CleanDirectory_of_listing env path fs files h
  simp only [hn, he, List.nil_append] at hval
  refine ⟨outs, hlen, ?_, ?_, ?_, hnone, ?_⟩
  · rw [hval]
    exact hc
  · intro f hf
    exact ⟨GetDirFiles_fullPath env path fs files h f hf,
      GetDirFiles_ne_dir env path fs files h f hf⟩
  · rw [hval, ← all_none_of_zip files outs hlen, ← failedNames_eq_nil_iff]
    by_cases hl : (failedNames files outs).length > 0
    · simp only [hl, if_true]
      constructor
      · intro hh; simp at hh
      · intro hh; simp [hh] at hl
    · simp only [hl, if_false, true_iff]
      exact List.length_eq_zero.1 (by omega)
  · intro msg hmsg
    rw [hval] at hmsg
    by_cases hl : (failedNames files outs).length > 0
    · simp only [hl, if_true, Option.some.injEq] at hmsg
      have hex : ∃ o ∈ outs, o ≠ none := by
        by_contra hcon
        have hall : ∀ o ∈ outs, o = none := by
          intro o ho
          by_contra hne
          exact hcon ⟨o, ho, hne⟩
        have := (failedNames_eq_nil_iff files outs).2
          ((all_none_of_zip files outs hlen).2 hall)
        simp [this] at hl
      obtain ⟨e, pre, post, hsplit, hpost, hlast⟩ := lastError_spec outs none hex
      refine ⟨hmsg.symm, ?_, e, pre, post, hsplit, hpost, hlast, ?_⟩
      · intro p hp hne
        have hmem := mem_failedNames files outs p hp hne
        have hinf := joinWith_infix " " (failedNames files outs) p.1.Name hmem
        rw [← hmsg]
        simp only [showNames, String.data_append]
        refine hinf.trans ?_
        refine List.IsInfix.trans ?_ (List.prefix_append _ _).isInfix
        refine List.IsInfix.trans ?_ (List.prefix_append _ _).isInfix
        refine List.IsInfix.trans ?_ (List.suffix_append _ _).isInfix
        refine List.IsInfix.trans ?_ (List.prefix_append _ _).isInfix
        exact (List.suffix_append _ _).isInfix
      · rw [← hmsg, hlast]
        simp only [showErr, String.data_append]
        exact List.suffix_append _ _
    · simp [hl] at hmsg

/-- The archive of `scriptsEnv`: `a.ps1` fails, `b.ps1` is executed all the same, and
the directory `lib` is neither executed nor entered. -/
theorem processArchive_executes_listing_witness :
    GetDirFiles scriptsEnv "/ws" (UnZip scriptsEnv (Join "/in" "x.zip") "/ws" emptyFS).2 =
        .ok [{ Name := "a.ps1", FullPath := "/ws/a.ps1", IsDir := false },
          { Name := "b.ps1", FullPath := "/ws/b.ps1", IsDir := false },
          { Name := "lib", FullPath := "/ws/lib", IsDir := true }] ∧
      (executed (processArchive scriptsEnv (New scriptsEnv "/ws") "/in" "/ws" "x.zip"
            emptyFS).2.calls =
          executed emptyFS.calls ++
            (([{ Name := "a.ps1", FullPath := "/ws/a.ps1", IsDir := false },
              { Name := "b.ps1", FullPath := "/ws/b.ps1", IsDir := false },
              { Name := "lib", FullPath := "/ws/lib", IsDir := true }] :
                List DirFile).filter (fun s => !s.IsDir)).map (fun s => [s.FullPath]) ∧
        ([{ Name := "a.ps1", FullPath := "/ws/a.ps1", IsDir := false },
          { Name := "b.ps1", FullPath := "/ws/b.ps1", IsDir := false },
          { Name := "lib", FullPath := "/ws/lib", IsDir := true }] :
            List DirFile).Sorted (fun a b => a.Name ≤ b.Name) ∧
        (∀ s ∈ ([{ Name := "a.ps1", FullPath := "/ws/a.ps1", IsDir := false },
          { Name := "b.ps1", FullPath := "/ws/b.ps1", IsDir := false },
          { Name := "lib", FullPath := "/ws/lib", IsDir := true }] : List DirFile),
          s.FullPath = Join "/ws" s.Name) ∧
        (([{ Name := "a.ps1", FullPath := "/ws/a.ps1", IsDir := false },
          { Name := "b.ps1", FullPath := "/ws/b.ps1", IsDir := false },
          { Name := "lib", FullPath := "/ws/lib", IsDir := true }] :
            List DirFile).map (fun s => s.FullPath)).Perm
          (((UnZip scriptsEnv (Join "/in" "x.zip") "/ws" emptyFS).2.nodes.filter
            (fun n => isChildOf "/ws" n.1)).map (fun n => n.1))) :=
  ⟨rfl, processArchive_executes_listing scriptsEnv (New scriptsEnv "/ws") "/in" "/ws" "x.zip"
    emptyFS _ rfl⟩

/-- The purge of `/ws` in `demoFS` when deleting `a` and `b` is denied. -/
theorem CleanDirectory_best_effort_witness :
    GetDirFiles deniedEnv "/ws" demoFS = .ok demoListing ∧
    ∃ outcomes : List (Option String), outcomes.length = demoListing.length ∧
      (CleanDirectory deniedEnv "/ws" demoFS).2.calls =
        demoFS.calls ++ List.zipWith (fun f o => (delCall f, o)) demoListing outcomes ∧
      (∀ f ∈ demoListing, f.FullPath = Join "/ws" f.Name ∧ f.FullPath ≠ Clean "/ws") ∧
      ((CleanDirectory deniedEnv "/ws" demoFS).1 = none ↔ ∀ o ∈ outcomes, o = none) ∧
      ((CleanDirectory deniedEnv "/ws" demoFS).1 = none →
        ReadDir deniedEnv "/ws" (CleanDirectory deniedEnv "/ws" demoFS).2 = .ok []) ∧
      (∀ msg, (CleanDirectory deniedEnv "/ws" demoFS).1 = some msg →
        msg = "error deleting " ++ toString (failedNames demoListing outcomes).length ++
            " files: " ++ showNames (failedNames demoListing outcomes) ++ " : lasterr: " ++
            showErr (lastError none outcomes) ∧
          (∀ p ∈ demoListing.zip outcomes, p.2 ≠ none → p.1.Name.data <:+: msg.data) ∧
          ∃ e pre post, outcomes = pre ++ some e :: post ∧ (∀ o ∈ post, o = none) ∧
            lastError none outcomes = some e ∧ e.data <:+ msg.data) :=
  ⟨rfl, CleanDirectory_best_effort deniedEnv "/ws" demoFS demoListing rfl⟩

/-! ## The workspace between two archives -/

theorem processArchives_append (env : Env) (pwsh : PowerShell) (scripts workspace : String)
    (pre rest : List String) :
    ∀ fs, processArchives env pwsh scripts workspace (pre ++ rest) fs =
      ((processArchives env pwsh scripts workspace pre fs).1 ++
        (processArchives env pwsh scripts workspace rest
          (processArchives env pwsh scripts workspace pre fs).2).1,
       (processArchives env pwsh scripts workspace rest
          (processArchives env pwsh scripts workspace pre fs).2).2) := by
  induction pre with
  | nil => intro fs; simp [processArchives]
  | cons f pre ih =>
    intro fs
    have hcons : ∀ (l : List String), processArchives env pwsh scripts workspace (f :: l) fs =
        ((processArchive env pwsh scripts workspace f fs).1 ++
          (processArchives env pwsh scripts workspace l
            (processArchive env pwsh scripts workspace f fs).2).1,
         (processArchives env pwsh scripts workspace l
            (processArchive env pwsh scripts workspace f fs).2).2) := by
      intro l
      rw [processArchives]
    rw [List.cons_append, hcons (pre ++ rest), hcons pre, ih]
    simp

theorem processArchives_single (env : Env) (pwsh : PowerShell) (scripts workspace f : String)
    (fs : FS) :
    processArchives env pwsh scripts workspace [f] fs =
      processArchive env pwsh scripts workspace f fs := by
  simp [processArchives]

theorem cleanError_mem_processArchive (env : Env) (pwsh : PowerShell)
    (scripts workspace f : String) (fs : FS) (err : String)
    (h : (CleanDirectory env workspace (extractAndRun env pwsh scripts workspace f fs).2).1 =
      some err) :
    Event.cleanError err ∈ (processArchive env pwsh scripts workspace f fs).1 := by
  unfold processArchive
  cases hx : extractAndRun env pwsh scripts workspace f fs with
  | mk ev fs2 =>
    rw [hx] at h
    simp only []
    cases hc : CleanDirectory env workspace fs2 with
    | mk e2 fs3 =>
      rw [hc] at h
      simp only at h
      subst h
      simp

/-- C4 (as stated, refuted): deleting `/ws/a.ps1` is denied, so when the extraction
of the second archive `y.zip` begins the workspace still holds `a.ps1` from the
first archive `x.zip`, and it is executed again with the scripts of `y.zip`. -/
theorem workspace_not_purged_after_purge_error :
    ReadDir stuckEnv "/ws"
        (processArchives stuckEnv (New stuckEnv "/ws") "/in" "/ws" ["x.zip"] emptyFS).2 =
        .ok [{ Name := "a.ps1", IsDir := false }] ∧
      executed (mainLoop stuckEnv "/in" "/ws" ["x.zip", "y.zip"] emptyFS).2.calls =
        [["/ws/a.ps1"], ["/ws/a.ps1"], ["/ws/b.ps1"]] :=
  ⟨rfl, rfl⟩

/-- C4 (amended): for every list of archives and every initial state, when the purge
that ends the processing of an archive logs no error, the workspace has no child
left in the state from which the following archives are processed, that is, at the
moment the extraction of the next archive begins. -/
theorem workspace_purged_before_next (env : Env) (pwsh : PowerShell)
    (scripts workspace : String) (pre : List String) (f : String) (rest : List String)
    (fs : FS)
    (h : ∀ e, Event.cleanError e ∉ (processArchive env pwsh scripts workspace f
      (processArchives env pwsh scripts workspace pre fs).2).1) :
    ReadDir env workspace
        (processArchives env pwsh scripts workspace (pre ++ [f]) fs).2 = .ok [] ∧
      (processArchives env pwsh scripts workspace (pre ++ f :: rest) fs).2 =
        (processArchives env pwsh scripts workspace rest
          (processArchives env pwsh scripts workspace (pre ++ [f]) fs).2).2 := by
  constructor
  · rw [processArchives_append, processArchives_single]
    simp only []
    rw [processArchive_snd]
    apply CleanDirectory_none_empty
    cases hc : (CleanDirectory env workspace (extractAndRun env pwsh scripts workspace f
        (processArchives env pwsh scripts workspace pre fs).2).2).1 with
    | none => rfl
    | some err => exact absurd (cleanError_mem_processArchive _ _ _ _ _ _ err hc) (h err)
  · have : pre ++ f :: rest = (pre ++ [f]) ++ rest := by simp
    rw [this, processArchives_append env pwsh scripts workspace (pre ++ [f]) rest]

/-- Two archives in the quiet environment: the purge after `x.zip` succeeds and
`y.zip` is extracted into an empty workspace. -/
theorem workspace_purged_before_next_witness :
    (∀ e, Event.cleanError e ∉ (processArchive (archiveEnv
        [{ Name := "a.ps1", IsDir := false, OpenErr := none, Body := [1] }])
        (New quietEnv "/ws") "/in" "/ws" "x.zip"
        (processArchives (archiveEnv
          [{ Name := "a.ps1", IsDir := false, OpenErr := none, Body := [1] }])
          (New quietEnv "/ws") "/in" "/ws" [] emptyFS).2).1) ∧
    (ReadDir (archiveEnv [{ Name := "a.ps1", IsDir := false, OpenErr := none, Body := [1] }])
        "/ws"
        (processArchives (archiveEnv
          [{ Name := "a.ps1", IsDir := false, OpenErr := none, Body := [1] }])
          (New quietEnv "/ws") "/in" "/ws" ([] ++ ["x.zip"]) emptyFS).2 = .ok [] ∧
      (processArchives (archiveEnv
          [{ Name := "a.ps1", IsDir := false, OpenErr := none, Body := [1] }])
          (New quietEnv "/ws") "/in" "/ws" ([] ++ "x.zip" :: ["y.zip"]) emptyFS).2 =
        (processArchives (archiveEnv
          [{ Name := "a.ps1", IsDir := false, OpenErr := none, Body := [1] }])
          (New quietEnv "/ws") "/in" "/ws" ["y.zip"]
          (processArchives (archiveEnv
            [{ Name := "a.ps1", IsDir := false, OpenErr := none, Body := [1] }])
            (New quietEnv "/ws") "/in" "/ws" ([] ++ ["x.zip"]) emptyFS).2).2) :=
  have hq : ∀ e, Event.cleanError e ∉ (processArchive (archiveEnv
        [{ Name := "a.ps1", IsDir := false, OpenErr := none, Body := [1] }])
        (New quietEnv "/ws") "/in" "/ws" "x.zip"
        (processArchives (archiveEnv
          [{ Name := "a.ps1", IsDir := false, OpenErr := none, Body := [1] }])
          (New quietEnv "/ws") "/in" "/ws" [] emptyFS).2).1 := by
    intro e he
    have hev : (processArchive (archiveEnv
        [{ Name := "a.ps1", IsDir := false, OpenErr := none, Body := [1] }])
        (New quietEnv "/ws") "/in" "/ws" "x.zip"
        (processArchives (archiveEnv
          [{ Name := "a.ps1", IsDir := false, OpenErr := none, Body := [1] }])
          (New quietEnv "/ws") "/in" "/ws" [] emptyFS).2).1 =
        [Event.processing "x.zip", Event.executing "/ws/a.ps1"] := rfl
    rw [hev] at he
    simp at he
  ⟨hq, workspace_purged_before_next _ _ "/in" "/ws" [] "x.zip" ["y.zip"] emptyFS hq⟩

/-! ## Extraction -/

/-- C1 (the code at the failing input): with the target directory `..`, the entry
`../evil` has destination `../../evil`, which starts with `../`, so the containment
check lets it through: `UnZip` returns no error and writes the content of the entry
to `../../evil`, outside the target directory. -/
theorem UnZip_dotdot_target_escapes :
    Join ".." "../evil" = "../../evil" ∧
      HasPrefix (Join ".." "../evil") (Clean ".." ++ "/") = true ∧
      UnZip (archiveEnv
          [{ Name := "../evil", IsDir := false, OpenErr := none, Body := [6, 6, 6] }])
          "/in/x.zip" ".." emptyFS =
        (none,
          { nodes := [("..", .dir), ("../..", .dir), ("../../evil", .file [6, 6, 6])],
            calls := [(.mkdirAll "../..", none), (.openFile "../../evil", none),
              (.write "../../evil" [6, 6, 6], none)] }) :=
  ⟨rfl, rfl, rfl⟩

/-- An entry that fails the containment check ends the extraction: `UnZip` returns an
error, and the file system and the history are those left by the entries before it. -/
theorem unzipLoop_abort_at_check (env : Env) (dstDir : String) (f : ZipFile)
    (post : List ZipFile)
    (h : HasPrefix (Join dstDir f.Name) (Clean dstDir ++ "/") = false)
    (pre : List ZipFile) :
    ∀ fs, (unzipLoop env dstDir (pre ++ f :: post) fs).1 ≠ none ∧
      (unzipLoop env dstDir (pre ++ f :: post) fs).2 = (unzipLoop env dstDir pre fs).2 := by
  induction pre with
  | nil =>
    intro fs
    have he : unzipEntry env dstDir f fs = (some "invalid file path", fs) := by
      unfold unzipEntry
      simp [h]
    simp [unzipLoop, he]
  | cons g rest ih =>
    intro fs
    simp only [List.cons_append, unzipLoop]
    cases hg : unzipEntry env dstDir g fs with
    | mk e fs1 =>
      cases e with
      | some err => simp
      | none => exact ih fs1

theorem cleanChars_double_sep (d n : List Char) (hd : d ≠ []) :
    cleanChars (d ++ '/' :: '/' :: n) = cleanChars (d ++ '/' :: n) := by
  have hroot : ∀ x : List Char, isRooted (d ++ x) = isRooted d := by
    intro x
    cases d with
    | nil => exact absurd rfl hd
    | cons c cs => rfl
  unfold cleanChars cleanSegs
  rw [hroot, hroot, splitSep_append, splitSep_append]
  have h2 : splitSep ('/' :: n) = [] :: splitSep n := by simp [splitSep]
  rw [h2, List.foldl_append, List.foldl_append, List.foldl_cons]
  have h0 : ∀ stk, cleanStep (isRooted d) stk [] = stk := by
    intro stk
    simp [cleanStep]
  rw [h0]

/-- Joining a non-empty directory with a name that starts with a separator gives the
same path as joining it with the name without that separator. -/
theorem Join_absolute (dir name : String) (hd : dir ≠ "") :
    Join dir ("/" ++ name) = Join dir name := by
  have hdd : dir.data ≠ [] := by
    intro h
    apply hd
    exact String.ext h
  simp only [Join, JoinList, hd, if_false, joinWith, Clean, String.data_append]
  congr 1
  have := cleanChars_double_sep dir.data name.data hdd
  simpa using this

theorem unzipEntry_makeAbsolute (env : Env) (dstDir : String) (hd : dstDir ≠ "")
    (f : ZipFile) (fs : FS) :
    unzipEntry env dstDir (makeAbsolute f) fs = unzipEntry env dstDir f fs := by
  unfold unzipEntry
  simp only [makeAbsolute, Join_absolute dstDir f.Name hd]

theorem unzipLoop_makeAbsolute (env : Env) (dstDir : String) (hd : dstDir ≠ "")
    (abs : ZipFile → Bool) (archive : List ZipFile) :
    ∀ fs, unzipLoop env dstDir (archive.map (fun f => if abs f then makeAbsolute f else f)) fs =
      unzipLoop env dstDir archive fs := by
  induction archive with
  | nil => intro fs; rfl
  | cons f rest ih =>
    intro fs
    simp only [List.map_cons, unzipLoop]
    have he : unzipEntry env dstDir (if abs f = true then makeAbsolute f else f) fs =
        unzipEntry env dstDir f fs := by
      split
      · exact unzipEntry_makeAbsolute env dstDir hd f fs
      · rfl
    rw [he]
    split
    · rfl
    · exact ih _

/-- C2 (as stated, refuted): with the target directory `/tmp/ws`, the entry named
`/etc/evil` is not rejected: `UnZip` returns no error and writes its content to
`/tmp/ws/etc/evil`. -/
theorem UnZip_absolute_name_accepted :
    UnZip absoluteEnv "/in/abs.zip" "/tmp/ws" emptyFS =
      (none,
        { nodes := [("/tmp", .dir), ("/tmp/ws", .dir), ("/tmp/ws/etc", .dir),
            ("/tmp/ws/etc/evil", .file [1, 2, 3])],
          calls := [(.mkdirAll "/tmp/ws/etc", none), (.openFile "/tmp/ws/etc/evil", none),
            (.write "/tmp/ws/etc/evil" [1, 2, 3], none)] }) :=
  rfl

/-- C2 (amended): for every non-empty target directory, an entry whose stored name is
an absolute path has the destination of the same name without its leading
separator, and `UnZip` treats an archive in which some entries are named that way
exactly as the archive with the relative names: same result, same calls, same file
system afterwards. -/
theorem UnZip_absolute_name_as_relative (env : Env) (srcAbs srcRel dstDir : String)
    (fs : FS) (archive : List ZipFile) (abs : ZipFile → Bool) (hd : dstDir ≠ "")
    (hrel : env.zipOpen srcRel = .ok archive)
    (habs : env.zipOpen srcAbs =
      .ok (archive.map (fun f => if abs f then makeAbsolute f else f))) :
    (∀ f ∈ archive, Join dstDir (makeAbsolute f).Name = Join dstDir f.Name) ∧
      UnZip env srcAbs dstDir fs = UnZip env srcRel dstDir fs := by
  constructor
  · intro f _
    exact Join_absolute dstDir f.Name hd
  · unfold UnZip
    rw [hrel, habs]
    exact unzipLoop_makeAbsolute env dstDir hd abs archive fs

/-- The archives `/in/abs.zip` and `/in/rel.zip` of `absoluteEnv`, extracted into
`/tmp/ws`. -/
theorem UnZip_absolute_name_as_relative_witness :
    ("/tmp/ws" : String) ≠ "" ∧
      absoluteEnv.zipOpen "/in/rel.zip" =
        .ok [{ Name := "etc/evil", IsDir := false, OpenErr := none, Body := [1, 2, 3] }] ∧
      absoluteEnv.zipOpen "/in/abs.zip" =
        .ok (([{ Name := "etc/evil", IsDir := false, OpenErr := none, Body := [1, 2, 3] }] :
          List ZipFile).map (fun f => if (fun _ => true) f then makeAbsolute f else f)) ∧
      ((∀ f ∈ ([{ Name := "etc/evil", IsDir := false, OpenErr := none, Body := [1, 2, 3] }] :
          List ZipFile), Join "/tmp/ws" (makeAbsolute f).Name = Join "/tmp/ws" f.Name) ∧
        UnZip absoluteEnv "/in/abs.zip" "/tmp/ws" emptyFS =
          UnZip absoluteEnv "/in/rel.zip" "/tmp/ws" emptyFS) :=
  ⟨by decide, rfl, rfl,
    UnZip_absolute_name_as_relative absoluteEnv "/in/abs.zip" "/in/rel.zip" "/tmp/ws" emptyFS
      _ (fun _ => true) (by decide) rfl rfl⟩

/-- C3 (the code at the failing input): the extraction of the archive of
`traversalEnv` fails with the path-traversal error at its second entry `../evil`,
after `a.ps1` has been written; the client does not look at the result of `UnZip`,
lists the workspace and executes `/ws/a.ps1`. -/
theorem mainLoop_executes_after_traversal_error :
    (UnZip traversalEnv (Join "/in" "x.zip") "/ws" emptyFS).1 = some "invalid file path" ∧
      executed (mainLoop traversalEnv "/in" "/ws" ["x.zip"] emptyFS).2.calls =
        [["/ws/a.ps1"]] ∧
      (mainLoop traversalEnv "/in" "/ws" ["x.zip"] emptyFS).1 =
        [.processing "x.zip", .executing "/ws/a.ps1"] :=
  ⟨rfl, rfl, rfl⟩

/-- C7 (the code at the failing input): creating the directory for the directory
entry `d/` fails, yet `UnZip` goes on with the next entry, writes `b.ps1` and
returns no error. -/
theorem UnZip_ignores_mkdir_error_of_directory_entry :
    UnZip mkdirDeniedEnv "/in/x.zip" "/ws" emptyFS =
      (none,
        { nodes := [("/ws", .dir), ("/ws/b.ps1", .file [2])],
          calls := [(.mkdirAll "/ws/d", some "permission denied"), (.mkdirAll "/ws", none),
            (.openFile "/ws/b.ps1", none), (.write "/ws/b.ps1" [2], none)] }) :=
  rfl

/-! ## The upload handler: missing file name -/

/-- C13 (as stated, refuted): a POST upload without file name in the route and in the
query is answered with status 500, not 400. -/
theorem upload_without_name_is_500 :
    (Server.uploadFileHandler quietEnv "/srv/files"
        { Method := "POST", pathFilename := "", queryFilename := "", queryDirectory := "a/b",
          Body := some [1, 2] } rootFS).1.status = 500 ∧
      (Server.uploadFileHandler quietEnv "/srv/files"
        { Method := "POST", pathFilename := "", queryFilename := "", queryDirectory := "a/b",
          Body := some [1, 2] } rootFS).1.status ≠ 400 :=
  ⟨rfl, by decide⟩

/-- C13 (amended): for every POST upload in which neither the route segment nor the
`filename` query parameter gives a file name, the handler answers with the error
of `writeJSONError` (status 500, JSON content type, message `error creating upload
file`, detail `filename not specified`) and leaves the file system as it was: no
call is made, no directory and no file is created. -/
theorem upload_without_name_rejected (env : Env) (srvFiles : String) (r : Server.Request)
    (fs : FS) (hm : r.Method = "POST") (hp : r.pathFilename = "")
    (hq : r.queryFilename = "") :
    Server.uploadFileHandler env srvFiles r fs =
      ({ status := 500, contentType := "application/json",
         body := "\x7b\"error\":true,\"message\":\"error creating upload file\"," ++
           "\"error\":\"filename not specified\"\x7d" }, fs) := by
  simp [Server.uploadFileHandler, Server.effectiveName, Server.writeJSONError, hm, hp, hq]

/-- A POST upload to `/upload` with a directory and a body but no file name. -/
theorem upload_without_name_rejected_witness :
    Server.uploadFileHandler quietEnv "/srv/files"
        { Method := "POST", pathFilename := "", queryFilename := "", queryDirectory := "a/b",
          Body := some [1, 2] } rootFS =
      ({ status := 500, contentType := "application/json",
         body := "\x7b\"error\":true,\"message\":\"error creating upload file\"," ++
           "\"error\":\"filename not specified\"\x7d" }, rootFS) :=
  upload_without_name_rejected quietEnv "/srv/files"
    { Method := "POST", pathFilename := "", queryFilename := "", queryDirectory := "a/b",
      Body := some [1, 2] } rootFS rfl rfl rfl

/-! ## The uploader -/

/-- C14 (the code at the failing input): for the directory `up` with two readable
files, `main` prints the two out-paths and exits with status 0 without sending any
request, although the loop `uploadDirFiles`, which comes after the exit, would send
one request for each of them. -/
theorem uploader_exits_before_uploading :
    Uploader.main quietEnv twoFilesWalk twoFilesFS "https://homebase/upload" "up" [] =
        { printed := ["up/a.txt", "up/b.txt"], requests := [], exitCode := 0 } ∧
      Uploader.uploadDirFiles quietEnv twoFilesFS "https://homebase/upload"
          (Uploader.GetAllDirFiles twoFilesWalk "up") =
        [{ url := "https://homebase/upload", directory := "up/", filename := "a.txt",
           body := [1] },
          { url := "https://homebase/upload", directory := "up/", filename := "b.txt",
            body := [2] }] :=
  ⟨rfl, rfl⟩

/-- C15 (the code at the failing input): walking the root `.`, the files `.env` and
`env` both get the out-path `env`; the out-path of `.env` is not the base name of the
root joined with its relative path, which is `.env`. -/
theorem makeOutPath_collision_under_dot :
    Uploader.GetAllDirFiles dotWalk "." =
        [{ Name := ".env", FullPath := ".env", OutPath := "env", IsDir := false },
          { Name := "env", FullPath := "env", OutPath := "env", IsDir := false }] ∧
      Uploader.makeOutPath "." ".env" = "env" ∧
      Join (Base ".") ".env" = ".env" :=
  ⟨rfl, rfl, rfl⟩

/-! ## The TLS configuration of the server -/

/-- With the policy request-client-cert the guard `certOpt > tls.RequestClientCert` is
false: the CA bundle is not read, and `getTLSConfig` returns a configuration without
client-CA pool.  The server itself always passes require-and-verify. -/
theorem getTLSConfig_request_policy_reads_no_bundle :
    Server.getTLSConfig (fun _ => .error "no such file or directory") (fun _ => [])
        "localhost" "./ca.crt" Server.RequestClientCert =
      some { ServerName := "localhost", ClientAuth := 1, ClientCAs := none,
             MinVersion := 771 } :=
  rfl

/-- The part of the start-up check that the code has: for every policy above
request-client-cert, `getTLSConfig` aborts
and returns nothing when the CA bundle cannot be read; for the policies
no-client-cert and request-client-cert the bundle is not read and the configuration
has no client-CA pool.  Every configuration that is returned has the given server
name, the given policy and minimum version TLS 1.2, and for a policy above
request-client-cert a client-CA pool holding the certificates found in the bundle. -/
theorem getTLSConfig_fail_closed (readFile : String → Except String (List Nat))
    (parsePEM : List Nat → List (List Nat)) (host caCertFile : String) (certOpt : Nat) :
    (Server.RequestClientCert < certOpt →
        ∀ e, readFile caCertFile = .error e →
          Server.getTLSConfig readFile parsePEM host caCertFile certOpt = none) ∧
      (certOpt ≤ Server.RequestClientCert →
        Server.getTLSConfig readFile parsePEM host caCertFile certOpt =
          some { ServerName := host, ClientAuth := certOpt, ClientCAs := none,
                 MinVersion := Server.VersionTLS12 }) ∧
      (∀ cfg, Server.getTLSConfig readFile parsePEM host caCertFile certOpt = some cfg →
        cfg.ServerName = host ∧ cfg.ClientAuth = certOpt ∧
          cfg.MinVersion = Server.VersionTLS12 ∧
          (Server.RequestClientCert < certOpt →
            ∃ caCert, readFile caCertFile = .ok caCert ∧
              cfg.ClientCAs = some (parsePEM caCert))) := by
  refine ⟨?_, ?_, ?_⟩
  · intro h e he
    simp [Server.getTLSConfig, h, he]
  · intro h
    have : ¬ certOpt > Server.RequestClientCert := by omega
    simp [Server.getTLSConfig, this]
  · intro cfg hcfg
    unfold Server.getTLSConfig at hcfg
    by_cases h : certOpt > Server.RequestClientCert
    · simp only [h, if_true] at hcfg
      cases hr : readFile caCertFile with
      | error e => simp [hr] at hcfg
      | ok caCert =>
        simp only [hr, Option.some.injEq] at hcfg
        subst hcfg
        exact ⟨rfl, rfl, rfl, fun _ => ⟨caCert, rfl, by simp⟩⟩
    · simp only [h, if_false, Option.some.injEq] at hcfg
      subst hcfg
      exact ⟨rfl, rfl, rfl, fun h' => absurd h' h⟩

/-- C17 (the code at the failing input): with the policy require-and-verify, which is
the one the server passes, and a CA bundle that is read but in which
`AppendCertsFromPEM` finds no certificate, `getTLSConfig` does not abort: the result
of `AppendCertsFromPEM` is not looked at, and a configuration is returned whose
client-CA pool is empty.  This holds for every content of the bundle, every host and
every file name, and for the bundle with the two bytes `no`. -/
theorem getTLSConfig_unparsed_bundle :
    (∀ (caCert : List Nat) (host caCertFile : String),
        Server.getTLSConfig (fun _ => .ok caCert) (fun _ => []) host caCertFile 4 =
          some { ServerName := host, ClientAuth := 4, ClientCAs := some [],
                 MinVersion := Server.VersionTLS12 }) ∧
      Server.getTLSConfig (fun _ => .ok [110, 111]) (fun _ => []) "localhost" "./ca.crt" 4 =
        some { ServerName := "localhost", ClientAuth := 4, ClientCAs := some [],
               MinVersion := 771 } :=
  ⟨fun _ _ _ => rfl, rfl⟩

/-! ## Creating a directory -/

/-- C18 (the code at the failing input): `/data/x` is a file; `CreateDir` returns no
error, the first time and the second time, changes nothing, and no directory exists
at `/data/x` afterwards. -/
theorem CreateDir_accepts_file_in_the_way :
    CreateDir quietEnv "/data/x" fileInWayFS = (none, fileInWayFS) ∧
      CreateDir quietEnv "/data/x" (CreateDir quietEnv "/data/x" fileInWayFS).2 =
        (none, fileInWayFS) ∧
      Stat quietEnv "/data/x" (CreateDir quietEnv "/data/x" fileInWayFS).2 = .found false :=
  ⟨rfl, rfl, rfl⟩

/-! ## Error bodies -/

/-- C19 (the code at the failing input): when `os.MkdirAll` fails for the upload
directory, the handler itself passes a message with quotation marks in it to
`writeJSONError`; the body sent with the JSON content type is the plain
concatenation, in which the string that starts at the message ends before
`/srv/files/a/b`, so the body is not a JSON text.  The same holds for
`writeJSONErrorWithCode`; a message and an error text without such characters give
a body that passes the scan. -/
theorem writeJSONError_unescaped_message :
    (Server.uploadFileHandler uploadDeniedEnv "/srv/files"
        { Method := "POST", pathFilename := "", queryFilename := "c.txt",
          queryDirectory := "a/b", Body := some [1, 2] } rootFS) =
      (Server.writeJSONError "error creating upload path \"/srv/files/a/b\""
          "permission denied",
        { nodes := rootFS.nodes,
          calls := [(.mkdirAll "/srv/files/a/b", some "permission denied")] }) ∧
      Server.writeJSONError "error creating upload path \"/srv/files/a/b\""
          "permission denied" =
        { status := 500, contentType := "application/json",
          body := "\x7b\"error\":true,\"message\":\"error creating upload path " ++
            "\"/srv/files/a/b\"\",\"error\":\"permission denied\"\x7d" } ∧
      jsonLexOK (Server.writeJSONError "error creating upload path \"/srv/files/a/b\""
        "permission denied").body = false ∧
      jsonLexOK (Server.writeJSONErrorWithCode "say \"hi\"" "x" 405).body = false ∧
      jsonLexOK (Server.writeJSONError "error creating upload file"
        "filename not specified").body = true :=
  ⟨rfl, rfl, rfl, rfl, rfl⟩

/-! ## The containment check on plain names -/

/-- C20 (the code at the failing input): for the target directories `.`, the empty
string and `/`, the containment check of `UnZip` rejects the plain entry `a.txt`
with the invalid-file-path error, and nothing is extracted. -/
theorem UnZip_rejects_plain_entry_in_dot_empty_root :
    UnZip (archiveEnv [{ Name := "a.txt", IsDir := false, OpenErr := none, Body := [1] }])
        "/in/x.zip" "." emptyFS = (some "invalid file path", emptyFS) ∧
      UnZip (archiveEnv [{ Name := "a.txt", IsDir := false, OpenErr := none, Body := [1] }])
        "/in/x.zip" "" emptyFS = (some "invalid file path", emptyFS) ∧
      UnZip (archiveEnv [{ Name := "a.txt", IsDir := false, OpenErr := none, Body := [1] }])
        "/in/x.zip" "/" emptyFS = (some "invalid file path", emptyFS) :=
  ⟨rfl, rfl, rfl⟩

/-! ## Splitting an out-path and joining it again -/

theorem cleanChars_double_sep_any (d n : List Char) :
    cleanChars (d ++ '/' :: '/' :: n) = cleanChars (d ++ '/' :: n) := by
  cases d with
  | nil =>
    have h2 : splitSep ('/' :: '/' :: n) = [] :: [] :: splitSep n := by simp [splitSep]
    have h1 : splitSep ('/' :: n) = [] :: splitSep n := by simp [splitSep]
    simp only [List.nil_append, cleanChars, cleanSegs, h1, h2, isRooted, List.foldl_cons]
    simp [cleanStep]
  | cons c cs => exact cleanChars_double_sep (c :: cs) n (by simp)

theorem dirPart_append_filePart (p : List Char) : dirPart p ++ filePart p = p := by
  unfold dirPart filePart
  rw [← List.reverse_append, List.takeWhile_append_dropWhile, List.reverse_reverse]

theorem dirPart_shape (p : List Char) : dirPart p = [] ∨ ∃ d, dirPart p = d ++ ['/'] := by
  unfold dirPart
  cases h : p.reverse.dropWhile (fun c => c != '/') with
  | nil => left; rfl
  | cons c rest =>
    right
    have hc : c = '/' := by
      have := List.head_dropWhile_not (fun c => c != '/') p.reverse (by simp [h])
      simp only [h, List.head_cons] at this
      simpa using this
    exact ⟨rest.reverse, by simp [hc]⟩

theorem JoinList_parts (root : String) (D F : List Char) (hF : F ≠ [])
    (hD : D = [] ∨ ∃ d, D = d ++ ['/']) :
    JoinList [root, ⟨D⟩, ⟨F⟩] = Join root ⟨D ++ F⟩ := by
  have hFs : (⟨F⟩ : String) ≠ "" := fun h => hF (congrArg String.data h)
  have hDF : (⟨D ++ F⟩ : String) ≠ "" := by
    intro h
    have := congrArg String.data h
    simp [hF] at this
  have hempty : (⟨[]⟩ : String) = "" := rfl
  by_cases hr : root = ""
  · subst hr
    rcases hD with hd | ⟨d, hd⟩
    · subst hd
      simp [Join, JoinList, hempty, hFs, joinWith]
    · have hDs : (⟨D⟩ : String) ≠ "" := by
        intro h
        have := congrArg String.data h
        simp [hd] at this
      simp only [Join, JoinList, hDF, hDs, if_false, if_true, joinWith, Clean,
        String.data_append]
      congr 1
      have e1 : D ++ "/".data ++ F = d ++ '/' :: '/' :: F := by
        rw [hd]
        simp
      have e2 : D ++ F = d ++ '/' :: F := by
        rw [hd]
        simp
      rw [e1, e2]
      exact cleanChars_double_sep_any _ _
  · simp only [Join, JoinList, hr, if_false, joinWith, Clean, String.data_append]
    congr 1
    rcases hD with hd | ⟨d, hd⟩
    · have e1 : root.data ++ "/".data ++ (D ++ "/".data ++ F) =
          root.data ++ '/' :: '/' :: F := by
        rw [hd]
        simp
      have e2 : root.data ++ "/".data ++ (D ++ F) = root.data ++ '/' :: F := by
        rw [hd]
        simp
      rw [e1, e2]
      exact cleanChars_double_sep_any _ _
    · have e1 : root.data ++ "/".data ++ (D ++ "/".data ++ F) =
          (root.data ++ '/' :: d) ++ '/' :: '/' :: F := by
        rw [hd]
        simp
      have e2 : root.data ++ "/".data ++ (D ++ F) = (root.data ++ '/' :: d) ++ '/' :: F := by
        rw [hd]
        simp
      rw [e1, e2]
      exact cleanChars_double_sep_any _ _

/-- Joining a root with the two parts of a split path gives the same as joining it
with the path, when the file part is not empty. -/
theorem JoinList_split (root p : String) (hf : (Split p).2 ≠ "") :
    JoinList [root, (Split p).1, (Split p).2] = Join root p := by
  have hfd : filePart p.data ≠ [] := by
    intro h
    apply hf
    simp [Split, h]
  have hp : p = ⟨dirPart p.data ++ filePart p.data⟩ := by
    rw [dirPart_append_filePart]
  have h := JoinList_parts root (dirPart p.data) (filePart p.data) hfd (dirPart_shape p.data)
  rw [← hp] at h
  exact h

/-- C16: for every file root and every out-path whose final component is not empty,
a request that carries the two parts into which the uploader splits the out-path as
its `directory` and `filename` parameters is stored by the upload handler at the file
root joined with the out-path. -/
theorem upload_split_join_agree (srvFiles p : String) (r : Server.Request)
    (hd : r.queryDirectory = (Split p).1) (hq : r.queryFilename = (Split p).2)
    (hf : (Split p).2 ≠ "") :
    Server.outputPath srvFiles r = Join srvFiles p := by
  have hname : Server.effectiveName r = (Split p).2 := by
    simp [Server.effectiveName, hq, hf]
  rw [Server.outputPath, hname, hd]
  exact JoinList_split srvFiles p hf

/-- The out-path `up/a.txt`, split into `up/` and `a.txt`, for the file root
`/srv/files`. -/
theorem upload_split_join_agree_witness :
    ("up/" : String) = (Split "up/a.txt").1 ∧ ("a.txt" : String) = (Split "up/a.txt").2 ∧
      (Split "up/a.txt").2 ≠ "" ∧
      Server.outputPath "/srv/files"
          { Method := "POST", pathFilename := "", queryFilename := "a.txt",
            queryDirectory := "up/", Body := some [1] } =
        Join "/srv/files" "up/a.txt" :=
  ⟨rfl, rfl, by decide,
    upload_split_join_agree "/srv/files" "up/a.txt"
      { Method := "POST", pathFilename := "", queryFilename := "a.txt",
        queryDirectory := "up/", Body := some [1] } rfl rfl (by decide)⟩

/-! ## The upload handler: a stored body -/

theorem Chmod_calls (env : Env) (path : String) (fs : FS) :
    (Chmod env path fs).2.calls = fs.calls ++ [(.chmod path, (Chmod env path fs).1)] := by
  unfold Chmod
  split
  · rfl
  · split <;> rfl

theorem Chmod_nodes (env : Env) (path : String) (fs : FS) :
    (Chmod env path fs).2.nodes = fs.nodes := by
  unfold Chmod
  split
  · rfl
  · split <;> rfl

theorem Copy_nodes (env : Env) (path : String) (data : List Nat) (fs : FS)
    (h : (Copy env path data fs).1 = none) :
    (Copy env path data fs).2.nodes =
      fs.nodes.filter (fun n => n.1 != Clean path) ++ [(Clean path, Node.file data)] := by
  unfold Copy at h ⊢
  split
  · rename_i hf
    simp [hf] at h
  · rfl

theorem storeBody_success (env : Env) (output : String) (body : Option (List Nat)) (fs : FS)
    (hs : (Server.storeBody env output body fs).1.status = 200) :
    ∃ b, body = some b ∧
      (Server.storeBody env output body fs).1.body =
        toString b.length ++ " bytes recieved.\n" ∧
      (Clean output, Node.file b) ∈ (Server.storeBody env output body fs).2.nodes ∧
      ∀ n ∈ (Server.storeBody env output body fs).2.nodes,
        n.1 = Clean output → n.2 = Node.file b := by
  cases body with
  | none => simp [Server.storeBody, Server.writeJSONError] at hs
  | some b =>
    refine ⟨b, rfl, ?_⟩
    rcases h1 : OpenFile env output fs with ⟨e1, fs1⟩
    cases e1 with
    | some err => simp [Server.storeBody, h1, Server.writeJSONError] at hs
    | none =>
      rcases h2 : Copy env output b fs1 with ⟨e2, fs2⟩
      cases e2 with
      | some err => simp [Server.storeBody, h1, h2, Server.writeJSONError] at hs
      | none =>
        rcases h3 : Chmod env output fs2 with ⟨e3, fs3⟩
        cases e3 with
        | some err => simp [Server.storeBody, h1, h2, h3, Server.writeJSONError] at hs
        | none =>
          have hn3 : fs3.nodes = fs2.nodes := by
            have := Chmod_nodes env output fs2
            rw [h3] at this
            exact this
          have hn2 : fs2.nodes =
              fs1.nodes.filter (fun n => n.1 != Clean output) ++
                [(Clean output, Node.file b)] := by
            have := Copy_nodes env output b fs1 (by rw [h2])
            rw [h2] at this
            exact this
          simp only [Server.storeBody, h1, h2, h3, hn3, hn2, true_and]
          refine ⟨by simp, ?_⟩
          intro n hn hk
          rcases List.mem_append.1 hn with hn | hn
          · have := (List.mem_filter.1 hn).2
            simp [hk] at this
          · simp only [List.mem_singleton] at hn
            rw [hn]

theorem Clean_JoinList_three (a b c : String) (hc : c ≠ "") :
    Clean (JoinList [a, b, c]) = JoinList [a, b, c] := by
  unfold JoinList
  by_cases ha : a = ""
  · simp only [ha, if_true]
    unfold JoinList
    by_cases hb : b = ""
    · simp only [hb, if_true]
      unfold JoinList
      simp only [hc, if_false]
      exact Clean_idem _
    · simp only [hb, if_false]
      exact Clean_idem _
  · simp only [ha, if_false]
    exact Clean_idem _

/-- C12: whenever the upload handler answers with status 200, the request is a POST
with a file name (the `filename` query parameter when not empty, else the route
segment) and a body `b`; the answer reports the length of `b`; and afterwards the
file system holds at the file root joined with the directory and the file name a
file with exactly the bytes of `b`, and nothing else under that path. -/
theorem upload_success_stores_body (env : Env) (srvFiles : String) (r : Server.Request)
    (fs : FS) (hs : (Server.uploadFileHandler env srvFiles r fs).1.status = 200) :
    r.Method = "POST" ∧ Server.effectiveName r ≠ "" ∧
      Server.outputPath srvFiles r =
        JoinList [srvFiles, r.queryDirectory, Server.effectiveName r] ∧
      ∃ b, r.Body = some b ∧
        (Server.uploadFileHandler env srvFiles r fs).1.body =
          toString b.length ++ " bytes recieved.\n" ∧
        (Server.outputPath srvFiles r, Node.file b) ∈
          (Server.uploadFileHandler env srvFiles r fs).2.nodes ∧
        ∀ n ∈ (Server.uploadFileHandler env srvFiles r fs).2.nodes,
          n.1 = Server.outputPath srvFiles r → n.2 = Node.file b := by
  by_cases hm : r.Method = "POST"
  · by_cases hn : Server.effectiveName r = ""
    · simp [Server.uploadFileHandler, hm, hn, Server.writeJSONError] at hs
    · have hclean : Clean (Server.outputPath srvFiles r) = Server.outputPath srvFiles r :=
        Clean_JoinList_three _ _ _ hn
      refine ⟨hm, hn, rfl, ?_⟩
      by_cases hdir : r.queryDirectory = "/" ∨ r.queryDirectory = ""
      · have hval : Server.uploadFileHandler env srvFiles r fs =
            Server.storeBody env (Server.outputPath srvFiles r) r.Body fs := by
          simp [Server.uploadFileHandler, hm, hn, hdir]
        rw [hval] at hs ⊢
        have := storeBody_success env _ _ _ hs
        rw [hclean] at this
        exact this
      · rcases hc : Server.createDir env (Join srvFiles r.queryDirectory) fs with ⟨e, fs1⟩
        cases e with
        | some err =>
          simp [Server.uploadFileHandler, hm, hn, hdir, hc, Server.writeJSONError] at hs
        | none =>
          have hval : Server.uploadFileHandler env srvFiles r fs =
              Server.storeBody env (Server.outputPath srvFiles r) r.Body fs1 := by
            simp [Server.uploadFileHandler, hm, hn, hdir, hc]
          rw [hval] at hs ⊢
          have := storeBody_success env _ _ _ hs
          rw [hclean] at this
          exact this
  · simp [Server.uploadFileHandler, hm, Server.writeJSONErrorWithCode] at hs

/-- An upload of two bytes with `directory=a/b` and `filename=c.txt` to the file root
`/srv/files`. -/
theorem upload_success_stores_body_witness :
    (Server.uploadFileHandler quietEnv "/srv/files"
        { Method := "POST", pathFilename := "", queryFilename := "c.txt",
          queryDirectory := "a/b", Body := some [1, 2] } rootFS).1.status = 200 ∧
      Server.outputPath "/srv/files"
          { Method := "POST", pathFilename := "", queryFilename := "c.txt",
            queryDirectory := "a/b", Body := some [1, 2] } = "/srv/files/a/b/c.txt" ∧
      ((Server.Request.mk "POST" "" "c.txt" "a/b" (some [1, 2])).Method = "POST" ∧
        Server.effectiveName (Server.Request.mk "POST" "" "c.txt" "a/b" (some [1, 2])) ≠ "" ∧
        Server.outputPath "/srv/files" (Server.Request.mk "POST" "" "c.txt" "a/b" (some [1, 2])) =
          JoinList ["/srv/files", (Server.Request.mk "POST" "" "c.txt" "a/b" (some [1, 2])).queryDirectory,
            Server.effectiveName (Server.Request.mk "POST" "" "c.txt" "a/b" (some [1, 2]))] ∧
        ∃ b, (Server.Request.mk "POST" "" "c.txt" "a/b" (some [1, 2])).Body = some b ∧
          (Server.uploadFileHandler quietEnv "/srv/files"
            (Server.Request.mk "POST" "" "c.txt" "a/b" (some [1, 2])) rootFS).1.body =
            toString b.length ++ " bytes recieved.\n" ∧
          (Server.outputPath "/srv/files" (Server.Request.mk "POST" "" "c.txt" "a/b" (some [1, 2])),
              Node.file b) ∈
            (Server.uploadFileHandler quietEnv "/srv/files"
              (Server.Request.mk "POST" "" "c.txt" "a/b" (some [1, 2])) rootFS).2.nodes ∧
          ∀ n ∈ (Server.uploadFileHandler quietEnv "/srv/files"
              (Server.Request.mk "POST" "" "c.txt" "a/b" (some [1, 2])) rootFS).2.nodes,
            n.1 = Server.outputPath "/srv/files"
              (Server.Request.mk "POST" "" "c.txt" "a/b" (some [1, 2])) →
            n.2 = Node.file b) :=
  ⟨rfl, rfl,
    upload_success_stores_body quietEnv "/srv/files"
      (Server.Request.mk "POST" "" "c.txt" "a/b" (some [1, 2])) rootFS rfl⟩

/-! ## The upload handler: where it writes -/

theorem foldl_cleanStep_noDotDot (rooted : Bool) (segs : List (List Char))
    (h : ∀ s ∈ segs, s ≠ ['.', '.']) :
    ∀ stk, ∃ pushed, segs.foldl (cleanStep rooted) stk = pushed ++ stk ∧
      ['.', '.'] ∉ pushed := by
  induction segs with
  | nil => intro stk; exact ⟨[], rfl, by simp⟩
  | cons s rest ih =>
    intro stk
    have hs : s ≠ ['.', '.'] := h s (by simp)
    have hrest : ∀ t ∈ rest, t ≠ ['.', '.'] := fun t ht => h t (by simp [ht])
    have hstep : cleanStep rooted stk s = stk ∨ cleanStep rooted stk s = s :: stk := by
      unfold cleanStep
      by_cases h1 : s = []
      · left; simp [h1]
      · by_cases h2 : s = ['.']
        · left; simp [h2]
        · right; simp [h1, h2, hs]
    rw [List.foldl_cons]
    rcases hstep with he | he
    · rw [he]
      exact ih hrest stk
    · rw [he]
      obtain ⟨pushed, hp, hnd⟩ := ih hrest (s :: stk)
      refine ⟨pushed ++ [s], by simp [hp], ?_⟩
      intro hmem
      rcases List.mem_append.1 hmem with hm | hm
      · exact hnd hm
      · simp only [List.mem_singleton] at hm
        exact hs hm.symm

/-- Elements without `..` appended to a non-empty path only add elements to the
cleaned path. -/
theorem cleanSegs_append_noDotDot (root x : List Char) (hr : root ≠ [])
    (hx : ∀ s ∈ splitSep x, s ≠ ['.', '.']) :
    isRooted (root ++ '/' :: x) = isRooted root ∧
      ∃ kept, cleanSegs (root ++ '/' :: x) = cleanSegs root ++ kept ∧ ['.', '.'] ∉ kept := by
  have hroot : isRooted (root ++ '/' :: x) = isRooted root := by
    cases root with
    | nil => exact absurd rfl hr
    | cons c cs => rfl
  refine ⟨hroot, ?_⟩
  unfold cleanSegs
  rw [hroot, splitSep_append, List.foldl_append]
  obtain ⟨pushed, hp, hnd⟩ := foldl_cleanStep_noDotDot (isRooted root) (splitSep x) hx
    ((splitSep root).foldl (cleanStep (isRooted root)) [])
  refine ⟨pushed.reverse, by rw [hp, List.reverse_append], ?_⟩
  simpa using hnd

theorem liesUnder_of_append (root p : String) (kept : List (List Char))
    (hr : isRooted p.data = isRooted root.data)
    (hk : cleanSegs p.data = cleanSegs root.data ++ kept) (hnd : ['.', '.'] ∉ kept) :
    liesUnder root p = true := by
  unfold liesUnder
  simp only [hr, hk, beq_self_eq_true, Bool.true_and, Bool.and_eq_true, Bool.not_eq_true',
    List.drop_left]
  refine ⟨?_, ?_⟩
  · exact List.isPrefixOf_iff_prefix.2 (List.prefix_append _ _)
  · simpa using hnd

theorem noDotDot_iff (x : String) :
    noDotDot x = true ↔ ∀ s ∈ splitSep x.data, s ≠ ['.', '.'] := by
  simp [noDotDot, List.all_eq_true]

/-- The written form of a canonical element list cleans to the same elements and is
rooted when the list is meant to be. -/
theorem cleanSegs_renderPath (rooted : Bool) (segs : List (List Char))
    (h : CanonStk rooted segs.reverse) :
    cleanSegs (renderPath rooted segs) = segs ∧ isRooted (renderPath rooted segs) = rooted := by
  have hmem : ∀ s ∈ segs, s ≠ [] ∧ s ≠ ['.'] ∧ '/' ∉ s := fun s hs =>
    canonStk_mem rooted segs.reverse h s (by simpa using hs)
  have hfold : segs.foldl (cleanStep rooted) [] = segs.reverse := by
    simpa using foldl_cleanStep_of_canon rooted segs [] (by simpa using h)
  cases rooted with
  | true =>
    have hr : renderPath true segs = '/' :: joinSegs segs := by simp [renderPath]
    have hroot : isRooted ('/' :: joinSegs segs) = true := by simp [isRooted]
    rw [hr]
    refine ⟨?_, hroot⟩
    unfold cleanSegs
    rw [hroot]
    cases segs with
    | nil => simp [joinSegs, splitSep, cleanStep]
    | cons s rest =>
      have hsp : splitSep ('/' :: joinSegs (s :: rest)) = [] :: (s :: rest) := by
        have := splitSep_append [] (joinSegs (s :: rest))
        rw [List.nil_append] at this
        rw [this, splitSep_joinSegs (s :: rest) (by simp) (fun u hu => (hmem u hu).2.2)]
        simp [splitSep]
      have h0 : cleanStep true [] [] = [] := by simp [cleanStep]
      rw [hsp, List.foldl_cons, h0, hfold]
      simp
  | false =>
    cases segs with
    | nil => simp [renderPath, joinSegs, cleanSegs, splitSep, cleanStep, isRooted]
    | cons s rest =>
      have hne : joinSegs (s :: rest) ≠ [] :=
        joinSegs_ne_nil _ (by simp) (fun u hu => (hmem u hu).1)
      have hr : renderPath false (s :: rest) = joinSegs (s :: rest) := by
        simp [renderPath, hne]
      have hroot : isRooted (joinSegs (s :: rest)) = false :=
        isRooted_joinSegs _ (fun u hu => ⟨(hmem u hu).1, (hmem u hu).2.2⟩)
      rw [hr]
      refine ⟨?_, hroot⟩
      unfold cleanSegs
      rw [hroot, splitSep_joinSegs (s :: rest) (by simp) (fun u hu => (hmem u hu).2.2), hfold]
      simp

/-- Cleaning keeps the elements and the rootedness of a path. -/
theorem cleanSegs_Clean (p : List Char) :
    cleanSegs (Clean ⟨p⟩).data = cleanSegs p ∧ isRooted (Clean ⟨p⟩).data = isRooted p := by
  have := cleanSegs_renderPath (isRooted p) (cleanSegs p) (cleanSegs_canon p)
  simpa [Clean, cleanChars] using this

/-- A non-empty root joined with a path without `..` lies under the root. -/
theorem liesUnder_Join (root x : String) (hr : root ≠ "") (hx : noDotDot x = true) :
    liesUnder root (Join root x) = true := by
  have hrd : root.data ≠ [] := fun h => hr (String.ext h)
  obtain ⟨h1, kept, h2, h3⟩ :=
    cleanSegs_append_noDotDot root.data x.data hrd ((noDotDot_iff x).1 hx)
  have hclean : Join root x = Clean ⟨root.data ++ '/' :: x.data⟩ := by
    simp only [Join, JoinList, hr, if_false, joinWith]
    congr 1
    apply String.ext
    simp
  have hidem : cleanSegs (Clean ⟨root.data ++ '/' :: x.data⟩).data =
      cleanSegs (root.data ++ '/' :: x.data) ∧
      isRooted (Clean ⟨root.data ++ '/' :: x.data⟩).data =
        isRooted (root.data ++ '/' :: x.data) := cleanSegs_Clean _
  rw [hclean]
  exact liesUnder_of_append root _ kept (by rw [hidem.2, h1]) (by rw [hidem.1, h2]) h3

theorem liesUnder_JoinList_three (root d n : String) (hr : root ≠ "")
    (hd : noDotDot d = true) (hn : noDotDot n = true) :
    liesUnder root (JoinList [root, d, n]) = true := by
  have hx : noDotDot ⟨d.data ++ '/' :: n.data⟩ = true := by
    rw [noDotDot_iff] at hd hn ⊢
    intro s hs
    simp only [splitSep_append, List.mem_append] at hs
    rcases hs with hs | hs
    · exact hd s hs
    · exact hn s hs
  have he : JoinList [root, d, n] = Join root ⟨d.data ++ '/' :: n.data⟩ := by
    simp only [Join, JoinList, hr, if_false, joinWith]
    congr 1
    apply String.ext
    simp
  rw [he]
  exact liesUnder_Join root _ hr hx

theorem createDir_calls (env : Env) (d : String) (fs : FS) :
    ∃ added, (Server.createDir env d fs).2.calls = fs.calls ++ added ∧
      ∀ c ∈ added, c.1.path = some d := by
  unfold Server.createDir
  cases Stat env d fs with
  | found isDir => exact ⟨[], by simp, by simp⟩
  | failed err => exact ⟨[], by simp, by simp⟩
  | notExist =>
    simp only []
    have h1 := MkdirAll_calls env d fs
    rcases hm : MkdirAll env d fs with ⟨e1, fs1⟩
    rw [hm] at h1
    cases e1 with
    | some err => exact ⟨[(.mkdirAll d, some err)], h1, by simp [Call.path]⟩
    | none =>
      simp only []
      have h2 := Chmod_calls env d fs1
      rcases hc : Chmod env d fs1 with ⟨e2, fs2⟩
      rw [hc] at h2
      have hboth : fs2.calls = fs.calls ++ [(.mkdirAll d, none), (.chmod d, e2)] := by
        simp only at h1 h2
        rw [h2, h1]
        simp
      cases e2 with
      | some err => exact ⟨_, hboth, by simp [Call.path]⟩
      | none => exact ⟨_, hboth, by simp [Call.path]⟩

theorem storeBody_calls (env : Env) (output : String) (body : Option (List Nat)) (fs : FS) :
    ∃ added, (Server.storeBody env output body fs).2.calls = fs.calls ++ added ∧
      ∀ c ∈ added, c.1.path = some output := by
  cases body with
  | none => exact ⟨[], by simp [Server.storeBody], by simp⟩
  | some b =>
    have h1 := OpenFile_calls env output fs
    rcases ho : OpenFile env output fs with ⟨e1, fs1⟩
    rw [ho] at h1
    simp only at h1
    cases e1 with
    | some err =>
      exact ⟨[(.openFile output, some err)], by simp [Server.storeBody, ho, h1],
        by simp [Call.path]⟩
    | none =>
      have h2 := Copy_calls env output b fs1
      rcases hc : Copy env output b fs1 with ⟨e2, fs2⟩
      rw [hc] at h2
      simp only at h2
      cases e2 with
      | some err =>
        exact ⟨[(.openFile output, none), (.write output b, some err)],
          by simp [Server.storeBody, ho, hc, h1, h2], by simp [Call.path]⟩
      | none =>
        have h3 := Chmod_calls env output fs2
        rcases hm : Chmod env output fs2 with ⟨e3, fs3⟩
        rw [hm] at h3
        simp only at h3
        cases e3 with
        | some err =>
          exact ⟨[(.openFile output, none), (.write output b, none), (.chmod output, some err)],
            by simp [Server.storeBody, ho, hc, hm, h1, h2, h3], by simp [Call.path]⟩
        | none =>
          exact ⟨[(.openFile output, none), (.write output b, none), (.chmod output, none)],
            by simp [Server.storeBody, ho, hc, hm, h1, h2, h3], by simp [Call.path]⟩

/-- C11 (as stated, refuted): with the file root `/srv/files`, an upload with
`directory=../outside` makes the handler create `/srv/outside` and write the file
`/srv/outside/x.txt`, neither of which lies under the file root. -/
theorem upload_escapes_file_root :
    (Server.uploadFileHandler quietEnv "/srv/files"
        { Method := "POST", pathFilename := "", queryFilename := "x.txt",
          queryDirectory := "../outside", Body := some [1, 2] } rootFS).2.calls =
      [(.mkdirAll "/srv/outside", none), (.chmod "/srv/outside", none),
        (.openFile "/srv/outside/x.txt", none), (.write "/srv/outside/x.txt" [1, 2], none),
        (.chmod "/srv/outside/x.txt", none)] ∧
      liesUnder "/srv/files" "/srv/outside" = false ∧
      liesUnder "/srv/files" "/srv/outside/x.txt" = false :=
  ⟨rfl, rfl, rfl⟩

/-- C11 (amended): for every non-empty file root and every POST upload whose
`directory` parameter and file name have no `..` element, every call the handler
makes (creating the directory, creating and writing the file, setting permissions)
is on a path that lies under the file root. -/
theorem upload_stays_under_root (env : Env) (srvFiles : String) (r : Server.Request)
    (fs : FS) (hroot : srvFiles ≠ "") (hd : noDotDot r.queryDirectory = true)
    (hn : noDotDot (Server.effectiveName r) = true) :
    ∃ added, (Server.uploadFileHandler env srvFiles r fs).2.calls = fs.calls ++ added ∧
      ∀ c ∈ added, ∃ p, c.1.path = some p ∧ liesUnder srvFiles p = true := by
  have hout : liesUnder srvFiles (Server.outputPath srvFiles r) = true :=
    liesUnder_JoinList_three srvFiles _ _ hroot hd hn
  have hdir : liesUnder srvFiles (Join srvFiles r.queryDirectory) = true :=
    liesUnder_Join srvFiles _ hroot hd
  unfold Server.uploadFileHandler
  by_cases hm : r.Method = "POST"
  · simp only [hm, if_true]
    by_cases hname : Server.effectiveName r = ""
    · simp only [hname, if_true]
      exact ⟨[], by simp, by simp⟩
    · simp only [hname, if_false]
      by_cases hq : r.queryDirectory = "/" ∨ r.queryDirectory = ""
      · simp only [hq, if_true]
        obtain ⟨added, h1, h2⟩ := storeBody_calls env (Server.outputPath srvFiles r) r.Body fs
        exact ⟨added, h1, fun c hc => ⟨_, h2 c hc, hout⟩⟩
      · simp only [hq, if_false]
        obtain ⟨a1, h1, h2⟩ := createDir_calls env (Join srvFiles r.queryDirectory) fs
        rcases hc : Server.createDir env (Join srvFiles r.queryDirectory) fs with ⟨e, fs1⟩
        rw [hc] at h1
        simp only at h1
        cases e with
        | some err => exact ⟨a1, h1, fun c hc => ⟨_, h2 c hc, hdir⟩⟩
        | none =>
          simp only []
          obtain ⟨a2, h3, h4⟩ :=
            storeBody_calls env (Server.outputPath srvFiles r) r.Body fs1
          refine ⟨a1 ++ a2, by rw [h3, h1, List.append_assoc], ?_⟩
          intro c hc
          rcases List.mem_append.1 hc with hc | hc
          · exact ⟨_, h2 c hc, hdir⟩
          · exact ⟨_, h4 c hc, hout⟩
  · simp only [hm, if_false]
    exact ⟨[], by simp, by simp⟩

/-- An upload with `directory=a/b` and `filename=c.txt` to the file root `/srv/files`. -/
theorem upload_stays_under_root_witness :
    ("/srv/files" : String) ≠ "" ∧
      noDotDot (Server.Request.mk "POST" "" "c.txt" "a/b" (some [1, 2])).queryDirectory = true ∧
      noDotDot (Server.effectiveName (Server.Request.mk "POST" "" "c.txt" "a/b" (some [1, 2]))) =
        true ∧
      ∃ added, (Server.uploadFileHandler quietEnv "/srv/files"
          (Server.Request.mk "POST" "" "c.txt" "a/b" (some [1, 2])) rootFS).2.calls =
            rootFS.calls ++ added ∧
        ∀ c ∈ added, ∃ p, c.1.path = some p ∧ liesUnder "/srv/files" p = true :=
  ⟨by decide, rfl, rfl,
    upload_stays_under_root quietEnv "/srv/files"
      (Server.Request.mk "POST" "" "c.txt" "a/b" (some [1, 2])) rootFS (by decide) rfl rfl⟩

/-! ## The containment check on plain names, for other targets -/

theorem canonStk_plain_append (rooted : Bool) (top acc : List (List Char))
    (hp : ∀ s ∈ top, PlainSeg s) (h : CanonStk rooted acc) : CanonStk rooted (top ++ acc) := by
  induction top with
  | nil => simpa using h
  | cons t ts ih =>
    left
    exact ⟨hp t (by simp), ih (fun s hs => hp s (by simp [hs]))⟩

theorem joinSegs_append (S N : List (List Char)) (hS : S ≠ []) (hN : N ≠ []) :
    joinSegs (S ++ N) = joinSegs S ++ '/' :: joinSegs N := by
  induction S with
  | nil => exact absurd rfl hS
  | cons s rest ih =>
    cases rest with
    | nil =>
      cases N with
      | nil => exact absurd rfl hN
      | cons n ns => simp [joinSegs]
    | cons t ts =>
      have := ih (by simp)
      simp only [List.cons_append] at this ⊢
      simp only [joinSegs, this]
      simp

/-- The cleaned elements of a non-empty path followed by plain elements: the plain
elements are added, in order. -/
theorem cleanSegs_append_plain (root x : List Char) (hr : root ≠ [])
    (hx : ∀ s ∈ splitSep x, PlainSeg s) :
    cleanSegs (root ++ '/' :: x) = cleanSegs root ++ splitSep x ∧
      isRooted (root ++ '/' :: x) = isRooted root := by
  have hroot : isRooted (root ++ '/' :: x) = isRooted root := by
    cases root with
    | nil => exact absurd rfl hr
    | cons c cs => rfl
  refine ⟨?_, hroot⟩
  unfold cleanSegs
  rw [hroot, splitSep_append, List.foldl_append]
  have hcanon : CanonStk (isRooted root)
      ((splitSep x).reverse ++ (splitSep root).foldl (cleanStep (isRooted root)) []) := by
    refine canonStk_plain_append _ _ _ ?_
      (foldl_cleanStep_canon _ _ [] (splitSep_no_sep root) trivial)
    intro s hs
    exact hx s (by simpa using hs)
  rw [foldl_cleanStep_of_canon _ _ _ hcanon]
  simp

/-- For a target directory whose cleaned form is neither `.` nor `/`, the containment
check of `UnZip` accepts every entry name made of plain elements only. -/
theorem containment_check_accepts_plain (dstDir name : String)
    (hdot : Clean dstDir ≠ ".") (hroot : Clean dstDir ≠ "/")
    (hplain : ∀ s ∈ splitSep name.data, PlainSeg s) :
    HasPrefix (Join dstDir name) (Clean dstDir ++ "/") = true := by
  have hne : dstDir ≠ "" := by
    intro h
    subst h
    exact hdot rfl
  have hnd : dstDir.data ≠ [] := fun h => hne (String.ext h)
  obtain ⟨hsegs, hr⟩ := cleanSegs_append_plain dstDir.data name.data hnd hplain
  have hS : cleanSegs dstDir.data ≠ [] := by
    intro h
    cases hrt : isRooted dstDir.data with
    | true =>
      apply hroot
      simp [Clean, cleanChars, renderPath, h, hrt, joinSegs]
    | false =>
      apply hdot
      simp [Clean, cleanChars, renderPath, h, hrt, joinSegs]
  have hN : splitSep name.data ≠ [] := splitSep_ne_nil _
  have hmem : ∀ s ∈ cleanSegs dstDir.data, s ≠ [] := fun s hs =>
    (canonStk_mem _ _ (cleanSegs_canon dstDir.data) s (by simpa using hs)).1
  have hjne : joinSegs (cleanSegs dstDir.data) ≠ [] := joinSegs_ne_nil _ hS hmem
  have hjoin : (Join dstDir name).data =
      (Clean dstDir).data ++ '/' :: joinSegs (splitSep name.data) := by
    simp only [Join, JoinList, hne, if_false, joinWith, Clean, String.data_append, cleanChars]
    have hd : dstDir.data ++ "/".data ++ name.data = dstDir.data ++ '/' :: name.data := by
      simp
    rw [hd, hsegs, hr]
    have hb1 : ∀ pre : List Char,
        pre ++ joinSegs (cleanSegs dstDir.data ++ splitSep name.data) ≠ [] := by
      intro pre
      rw [joinSegs_append _ _ hS hN]
      simp
    have hb2 : ∀ pre : List Char, pre ++ joinSegs (cleanSegs dstDir.data) ≠ [] := by
      intro pre
      simp [hjne]
    simp only [renderPath, hb1, hb2, if_false]
    rw [joinSegs_append _ _ hS hN]
    simp
  unfold HasPrefix
  rw [hjoin, String.data_append]
  exact List.isPrefixOf_iff_prefix.2 ⟨joinSegs (splitSep name.data), by simp⟩

/-! ## Further facts on the uploader, the TLS configuration and `CreateDir` -/

/-- Whatever the files, `main` of the uploader sends no request. -/
theorem uploader_main_sends_no_request (env : Env) (walk : String → List Uploader.WalkEntry)
    (fs : FS) (destinationURL uploadDirectory : String) (args : List String) :
    (Uploader.main env walk fs destinationURL uploadDirectory args).requests = [] := by
  unfold Uploader.main
  simp only []
  split <;> split <;> rfl

/-- The policy require-and-verify with a CA bundle that cannot be read; the policy
request-client-cert; and a bundle that is read. -/
theorem getTLSConfig_fail_closed_witness :
    Server.getTLSConfig (fun _ => .error "no such file or directory") (fun _ => [])
        "localhost" "./ca.crt" 4 = none ∧
      Server.getTLSConfig (fun _ => .error "no such file or directory") (fun _ => [])
        "localhost" "./ca.crt" 1 =
        some { ServerName := "localhost", ClientAuth := 1, ClientCAs := none,
               MinVersion := Server.VersionTLS12 } ∧
      (∀ cfg, Server.getTLSConfig (fun _ => .ok [45, 45]) (fun b => [b]) "localhost" "./ca.crt"
          4 = some cfg →
        cfg.ServerName = "localhost" ∧ cfg.ClientAuth = 4 ∧
          cfg.MinVersion = Server.VersionTLS12 ∧
          (Server.RequestClientCert < 4 →
            ∃ caCert, (fun _ => Except.ok [45, 45] : String → Except String (List Nat))
                "./ca.crt" = .ok caCert ∧
              cfg.ClientCAs = some ((fun b => [b]) caCert))) :=
  ⟨(getTLSConfig_fail_closed (fun _ => .error "no such file or directory") (fun _ => [])
      "localhost" "./ca.crt" 4).1 (by decide) _ rfl,
    (getTLSConfig_fail_closed (fun _ => .error "no such file or directory") (fun _ => [])
      "localhost" "./ca.crt" 1).2.1 (by decide),
    (getTLSConfig_fail_closed (fun _ => .ok [45, 45]) (fun b => [b])
      "localhost" "./ca.crt" 4).2.2⟩

theorem Chmod_none_exists (env : Env) (path : String) (fs : FS)
    (h : (Chmod env path fs).1 = none) :
    env.fault (.chmod path) = none ∧
      (dirExists fs.nodes (Clean path) || fileExists fs.nodes (Clean path)) = true := by
  unfold Chmod at h
  cases hf : env.fault (.chmod path) with
  | some err => simp [hf] at h
  | none =>
    simp only [hf] at h
    by_cases hex : (dirExists fs.nodes (Clean path) || fileExists fs.nodes (Clean path)) = true
    · exact ⟨rfl, hex⟩
    · simp [hex] at h

theorem MkdirAll_none_ne_empty (env : Env) (path : String) (fs : FS)
    (h : (MkdirAll env path fs).1 = none) : path ≠ "" := by
  intro hp
  subst hp
  unfold MkdirAll at h
  cases hf : env.fault (.mkdirAll "") with
  | some err => simp [hf] at h
  | none => simp [hf] at h

theorem Stat_ne_notExist (env : Env) (path : String) (fs : FS) (hp : path ≠ "")
    (hex : (dirExists fs.nodes (Clean path) || fileExists fs.nodes (Clean path)) = true) :
    Stat env path fs ≠ .notExist := by
  unfold Stat
  simp only [hp, if_false]
  cases env.fault (.stat path) with
  | some err => simp
  | none =>
    simp only []
    split
    · simp
    · by_cases hd : dirExists fs.nodes (Clean path) = true
      · simp [hd]
      · have hfe : fileExists fs.nodes (Clean path) = true := by
          simpa [hd] using hex
        simp [hd, hfe]

/-- A call of `CreateDir` that returns no error leaves a state in which the next call
returns no error and changes nothing. -/
theorem CreateDir_twice (env : Env) (path : String) (fs : FS)
    (h : (CreateDir env path fs).1 = none) :
    CreateDir env path (CreateDir env path fs).2 = (none, (CreateDir env path fs).2) := by
  cases hs : Stat env path fs with
  | found isDir =>
    have hv : CreateDir env path fs = (none, fs) := by simp [CreateDir, hs]
    rw [hv]
    exact hv
  | failed err =>
    have hv : CreateDir env path fs = (none, fs) := by simp [CreateDir, hs]
    rw [hv]
    exact hv
  | notExist =>
    rcases hm : MkdirAll env path fs with ⟨e1, fs1⟩
    cases e1 with
    | some err => simp [CreateDir, hs, hm] at h
    | none =>
      have hpne : path ≠ "" := MkdirAll_none_ne_empty env path fs (by rw [hm])
      rcases hc : Chmod env path fs1 with ⟨e2, fs2⟩
      cases e2 with
      | some err => simp [CreateDir, hs, hm, hc] at h
      | none =>
        have hv : CreateDir env path fs = (none, fs2) := by simp [CreateDir, hs, hm, hc]
        rw [hv]
        have hex := (Chmod_none_exists env path fs1 (by rw [hc])).2
        have hn : fs2.nodes = fs1.nodes := by
          have := Chmod_nodes env path fs1
          rw [hc] at this
          exact this
        have hs2 : Stat env path fs2 ≠ .notExist :=
          Stat_ne_notExist env path fs2 hpne (by rw [hn]; exact hex)
        unfold CreateDir
        cases hst : Stat env path fs2 with
        | notExist => exact absurd hst hs2
        | found isDir => rfl
        | failed err => rfl

end Scriptrunner
